import Mathlib

/-!
# Verification of the `ytnd` download-orchestration pipeline

A shallow embedding, in Lean 4, of the core pipeline of the `ytnd`
repository (`ytnd/downloader.py`, `ytnd/utils.py`, `ytnd/database.py`),
together with theorems settling the frozen claims about it.

Modelling conventions:
* Python strings are Lean `String`s (sequences of unicode code points); the
  ASCII-only fragments of `str.lower`, `str.strip` and percent-encoding are
  modelled character-wise (all string constants that the code inspects are
  ASCII).
* Python `None`-able values are `Option`s; Python truthiness of a string
  value is `pyTruthyStr` (`None` and `""` are falsy).
* External effects (the SQLite queue store, `shutil.disk_usage`, the
  `yt_dlp` extractor/downloader, `urllib.parse.urlparse`, the mutagen
  taggers, the produced files of a download) are modelled as explicit
  oracles in a configuration record; the pipeline itself is translated
  statement by statement from the source.
* The two thread pools of `run` are modelled by sequential iteration:
  all counts and the final cache are order-insensitive aggregates, and the
  claims under study do not concern the interleaving itself.
-/

set_option maxRecDepth 4096

namespace Ytnd

/-! ## Python string primitives -/

/-- Truthiness of an optional Python string: `None` and `""` are falsy. -/
def pyTruthyStr : Option String → Bool
  | none => false
  | some s => s ≠ ""

/-- Python `a or b` on two optional strings (`b` when `a` is falsy). -/
def pyOrStr (a b : Option String) : Option String :=
  if pyTruthyStr a then a else b

/-- Python `f"{x}"` of an optional string (`None` prints as `"None"`). -/
def pyShow : Option String → String
  | none => "None"
  | some s => s

/-- The whitespace set of Python `str.strip()` (ASCII fragment). -/
def isPyWs (c : Char) : Bool :=
  c = ' ' || c = '\t' || c = '\n' || c = '\r' || c = '\x0b' || c = '\x0c'

/-- Python `str.strip()` on a character list. -/
def pyStripList (l : List Char) : List Char :=
  (((l.dropWhile isPyWs).reverse).dropWhile isPyWs).reverse

/-- Python `str.strip()`. -/
def pyStrip (s : String) : String := String.mk (pyStripList s.data)

/-- Python `str.rstrip(".")` on a character list. -/
def rstripDots (l : List Char) : List Char :=
  ((l.reverse).dropWhile (fun c => c = '.')).reverse

/-- Python `str.lower()` (ASCII fragment, via `Char.toLower`). -/
def pyLower (s : String) : String := String.mk (s.data.map Char.toLower)

/-- Test whether `needle` occurs as a contiguous sublist of the list. -/
def containsList (needle : List Char) : List Char → Bool
  | [] => needle.isPrefixOf []
  | c :: rest => needle.isPrefixOf (c :: rest) || containsList needle rest

/-- Python `needle in hay` on strings (contiguous substring). -/
def containsSub (hay needle : String) : Bool := containsList needle.data hay.data

/-- Python `str.strip("/")` on a string. -/
def stripSlashes (s : String) : String :=
  String.mk ((((s.data.dropWhile (fun c => c = '/')).reverse).dropWhile (fun c => c = '/')).reverse)

/-- Implementation of `s.startsWith p` via character lists (kernel-reducible). -/
def strStarts (s p : String) : Bool := p.data.isPrefixOf s.data

/-- Implementation of `s.endsWith p` via character lists (kernel-reducible). -/
def strEnds (s p : String) : Bool := p.data.isSuffixOf s.data

/-! ## `urllib.parse` query-string machinery

`parse_qs`, `urlencode(..., doseq=True)` with `quote_plus`, and `urlunparse`,
modelled at the byte/character level (ASCII fragment: a character with code
point ≥ 256 is passed through literally instead of being UTF-8
percent-encoded; every constant the pipeline inspects is ASCII). -/

/-- Value of one hexadecimal digit character. -/
def hexVal (c : Char) : Option Nat :=
  if '0' ≤ c ∧ c ≤ '9' then some (c.toNat - 48)
  else if 'A' ≤ c ∧ c ≤ 'F' then some (c.toNat - 55)
  else if 'a' ≤ c ∧ c ≤ 'f' then some (c.toNat - 87)
  else none

/-- Upper-case hexadecimal digit for `n < 16`. -/
def hexDigitChar (n : Nat) : Char :=
  if n < 10 then Char.ofNat (48 + n) else Char.ofNat (55 + n)

/-- Model of `s.replace('+', ' ')`, as done by `parse_qsl` before unquoting. -/
def plusToSpace (l : List Char) : List Char :=
  l.map (fun c => if c = '+' then ' ' else c)

/-- One step of the percent-decoding automaton.  The state is
`(reversed output, pending chars of a candidate escape)`; the pending list is
`[]`, `['%']` or `['%', a]` with `a` a hex digit. -/
def pctFoldStep : (List Char × List Char) → Char → (List Char × List Char)
  | (out, []), c => if c = '%' then (out, ['%']) else (c :: out, [])
  | (out, ['%']), c =>
    if (hexVal c).isSome then (out, ['%', c])
    else if c = '%' then ('%' :: out, ['%'])
    else (c :: '%' :: out, [])
  | (out, ['%', a]), c =>
    (match hexVal a, hexVal c with
     | some x, some y => (Char.ofNat (16 * x + y) :: out, [])
     | _, _ => if c = '%' then (a :: '%' :: out, ['%']) else (c :: a :: '%' :: out, []))
  | (out, pend), c => (c :: pend.reverse ++ out, [])

/-- Percent-decoding of `urllib.parse.unquote` (single-byte fragment):
each valid `%XX` escape becomes the character `XX`, an invalid escape is kept
literally. -/
def pctDecode (l : List Char) : List Char :=
  let st := l.foldl pctFoldStep ([], [])
  st.1.reverse ++ st.2

/-- Model of `unquote(s.replace('+', ' '))` as used by `parse_qsl`. -/
def pyUnquotePlus (l : List Char) : List Char := pctDecode (plusToSpace l)

/-- The always-safe characters of `urllib.parse.quote` (letters, digits, `_.-~`). -/
def safeChar (c : Char) : Bool :=
  c.isAlpha || c.isDigit || c = '_' || c = '.' || c = '-' || c = '~'

/-- Model of `quote_plus` of a single character (single-byte fragment). -/
def quoteChar (c : Char) : List Char :=
  if safeChar c then [c]
  else if c = ' ' then ['+']
  else if c.toNat < 256 then ['%', hexDigitChar (c.toNat / 16), hexDigitChar (c.toNat % 16)]
  else [c]

/-- Model of `urllib.parse.quote_plus` on a character list. -/
def pyQuotePlus (l : List Char) : List Char := (l.map quoteChar).flatten

/-- Model of `s.split('&')` (Python `str.split` keeps empty segments, `"".split('&') = [""]`). -/
def splitAmp : List Char → List (List Char)
  | [] => [[]]
  | c :: rest =>
    if c = '&' then [] :: splitAmp rest
    else
      match splitAmp rest with
      | s :: ss => (c :: s) :: ss
      | [] => [[c]]

/-- Model of `seg.split('=', 1)` when an `'='` is present: the parts before/after the first `'='`. -/
def splitEq : List Char → Option (List Char × List Char)
  | [] => none
  | c :: rest =>
    if c = '=' then some ([], rest)
    else (splitEq rest).map (fun p => (c :: p.1, p.2))

/-- One segment of `parse_qsl` with `keep_blank_values=False`: empty segments,
segments without `'='` and segments with an empty value are dropped. -/
def qsSeg (seg : List Char) : Option (List Char × List Char) :=
  if seg = [] then none
  else
    match splitEq seg with
    | none => none
    | some (k, v) => if v = [] then none else some (pyUnquotePlus k, pyUnquotePlus v)

/-- Model of `urllib.parse.parse_qsl(q)` (default arguments). -/
def parse_qsl (q : List Char) : List (List Char × List Char) :=
  (splitAmp q).filterMap qsSeg

/-- Append a value to the group of key `k`, or start a new group at the end. -/
def addVal : List (List Char × List (List Char)) → List Char → List Char →
    List (List Char × List (List Char))
  | [], k, v => [(k, [v])]
  | (k', vs) :: rest, k, v =>
    if k' = k then (k', vs ++ [v]) :: rest else (k', vs) :: addVal rest k v

/-- Model of `urllib.parse.parse_qs(q)`: values grouped per key, keys in first-occurrence
order (a Python `dict`, modelled as an association list). -/
def parse_qs (q : List Char) : List (List Char × List (List Char)) :=
  (parse_qsl q).foldl (fun acc kv => addVal acc kv.1 kv.2) []

/-- Join `'&'.join`, the final join of `urlencode`. -/
def joinAmp : List (List Char) → List Char
  | [] => []
  | [s] => s
  | s :: rest => s ++ '&' :: joinAmp rest

/-- Model of `urlencode({k: v[0] if len(v) == 1 else v for k, v in qs.items()}, doseq=True)`:
one `quote_plus(k)=quote_plus(v)` segment per value, groups in order. -/
def urlencodeGrouped (l : List (List Char × List (List Char))) : List Char :=
  joinAmp ((l.map (fun kv => kv.2.map (fun v => pyQuotePlus kv.1 ++ '=' :: pyQuotePlus v))).flatten)

/-- The result of `urllib.parse.urlparse`: scheme, netloc, path, params,
query, fragment. `urlparse` itself is an external library call; the pipeline
functions below take the parsed form as an explicit argument. -/
structure Url where
  scheme : String
  netloc : String
  path : String
  params : String
  query : String
  fragment : String
deriving DecidableEq

/-- Model of `urllib.parse.urlunparse` / `urlunsplit`. -/
def urlunparse (scheme netloc path params query fragment : String) : String :=
  let url := if params ≠ "" then path ++ ";" ++ params else path
  let url :=
    if netloc ≠ "" ∨ (url ≠ "" ∧ strStarts url "//") then
      (if url ≠ "" ∧ ¬ strStarts url "/" then "//" ++ netloc ++ "/" ++ url
       else "//" ++ netloc ++ url)
    else url
  let url := if scheme ≠ "" then scheme ++ ":" ++ url else url
  let url := if query ≠ "" then url ++ "?" ++ query else url
  if fragment ≠ "" then url ++ "#" ++ fragment else url

/-! ## `ytnd/utils.py`: URL classification and filename sanitisation -/

/-- Key membership in a `parse_qs` result. -/
def hasQsKey (qs : List (List Char × List (List Char))) (k : List Char) : Bool :=
  qs.any (fun kv => kv.1 = k)

/-- Model of `utils.is_youtube_playlist_url(url)`.  `u` stands for `urlparse(url)`,
which is an external call; the character-level checks mirror the source. -/
def is_youtube_playlist_url (url : String) (u : Url) : Bool :=
  if url = "" then false
  else if url.length > 2000 then false
  else
    let host := pyLower u.netloc
    let path := u.path
    let qs := parse_qs u.query.data
    let has_v := hasQsKey qs ['v']
    let has_list := hasQsKey qs ['l', 'i', 's', 't']
    if ¬ (containsSub host "youtube.com" ∨ containsSub host "youtu.be") then false
    else if strStarts path "/playlist" then true
    else if strEnds host "youtu.be" ∧ stripSlashes path ≠ "" then false
    else if strStarts path "/shorts/" then false
    else if strStarts path "/watch" ∧ has_list ∧ ¬ has_v then true
    else false

/-- The dictionary handed to `urlencode` in `strip_playlist_context`:
`parse_qs` of the query with `list`, `index`, `start_radio` popped. -/
def strippedQS (q : List Char) : List (List Char × List (List Char)) :=
  (parse_qs q).filter (fun kv =>
    ¬ (kv.1 = ['l', 'i', 's', 't'] ∨ kv.1 = ['i', 'n', 'd', 'e', 'x'] ∨
       kv.1 = ['s', 't', 'a', 'r', 't', '_', 'r', 'a', 'd', 'i', 'o']))

/-- The re-encoded query string produced by `strip_playlist_context`. -/
def strippedQuery (q : List Char) : List Char := urlencodeGrouped (strippedQS q)

/-- Model of `utils.strip_playlist_context(url)`.  `u` stands for `urlparse(url)`. -/
def strip_playlist_context (url : String) (u : Url) : String :=
  if url = "" then ""
  else if url.length > 2000 then String.mk (url.data.take 2000)
  else
    urlunparse u.scheme u.netloc u.path u.params (String.mk (strippedQuery u.query.data))
      u.fragment

/-- The nine characters `utils._illegal` matches. -/
def isIllegalChar (c : Char) : Bool :=
  c = '/' || c = '\\' || c = ':' || c = '*' || c = '?' || c = '"' ||
  c = '<' || c = '>' || c = '|'

/-- The per-character replacement table of `sanitize_filename`. -/
def replChar (c : Char) : Char :=
  if c = '/' then '／' else if c = '\\' then '＼'
  else if c = ':' then '：' else if c = '*' then '＊'
  else if c = '?' then '？' else if c = '"' then '＂'
  else if c = '<' then '＜' else if c = '>' then '＞'
  else if c = '|' then '｜' else c

/-- Model of `utils.sanitize_filename(name)`: truncate to 200, replace the nine illegal
characters by full-width forms, delete any remaining illegal character
(`_re_illegal.sub`), strip whitespace, strip trailing dots. -/
def sanitize_filename (name : String) : String :=
  if name = "" then "unnamed"
  else
    String.mk (rstripDots (pyStripList
      (((name.data.take 200).map replChar).filter (fun c => ¬ isIllegalChar c))))

/-! ## `fnmatch`-style matching for `Path.glob(f"*{sanitized}*")`

`pathlib.Path.glob` matches a pattern without path separators against every
file name of the directory via the regex `fnmatch.translate` builds.  The
sanitised pattern body can contain neither `*` nor `?` (both are replaced by
`sanitize_filename`), so the only remaining metacharacters are bracket
character classes; an unclosed `[` is literal. -/

/-- Split a character-class body at the first `']'`. -/
def findClose : List Char → Option (List Char × List Char)
  | [] => none
  | c :: rest =>
    if c = ']' then some ([], rest)
    else (findClose rest).map (fun p => (c :: p.1, p.2))

/-- After a `[`: the class body (honouring a leading `!` and a leading
literal `]`) and the remainder of the pattern, or `none` if unclosed. -/
def splitClass (l : List Char) : Option (List Char × List Char) :=
  match l with
  | '!' :: ']' :: rest => (findClose rest).map (fun p => ('!' :: ']' :: p.1, p.2))
  | '!' :: rest =>
    (match rest with
     | [] => none
     | _ => (findClose rest).map (fun p => ('!' :: p.1, p.2)))
  | ']' :: rest => (findClose rest).map (fun p => (']' :: p.1, p.2))
  | _ => findClose l

/-- Membership of a character in a class body (ranges `a-b`, else literals). -/
def classMatch : List Char → Char → Bool
  | [], _ => false
  | [x], c => x = c
  | x :: '-' :: y :: rest, c => (x ≤ c ∧ c ≤ y) || classMatch rest c
  | x :: rest, c => x = c || classMatch rest c

/-- Class membership including the `!` negation prefix. -/
def classMatchFull (body : List Char) (c : Char) : Bool :=
  match body with
  | '!' :: inner => ¬ classMatch inner c
  | _ => classMatch body c

/-- Match a star-free `fnmatch` pattern against a prefix of the text,
returning the remaining text. -/
def chunkMatch : List Char → List Char → Option (List Char)
  | [], t => some t
  | p :: ps, t =>
    if p = '[' then
      (match splitClass ps with
       | some (body, rest) =>
         (match t with
          | [] => none
          | c :: ts => if classMatchFull body c then chunkMatch rest ts else none)
       | none =>
         (match t with
          | c :: ts => if c = '[' then chunkMatch ps ts else none
          | [] => none))
    else
      (match t with
       | c :: ts => if c = p then chunkMatch ps ts else none
       | [] => none)

/-- The `fnmatch` of the glob pattern `*pat*` against `name`: the star-free
chunk `pat` matches starting at some position of `name`. -/
def globContains (pat : List Char) : List Char → Bool
  | [] => (chunkMatch pat []).isSome
  | c :: rest => (chunkMatch pat (c :: rest)).isSome || globContains pat rest

/-! ## `ytnd/downloader.py`: data model -/

/-- Model of `downloader._shorten(s, 600)` (with the `or ""` guard of its call sites). -/
def shorten (s : Option String) : String :=
  let t := pyStrip (s.getD "")
  if t.length ≤ 600 then t else String.mk (t.data.take 600) ++ " …"

/-- Model of `downloader._needs_android_client(stderr_out)`. -/
def needs_android_client (stderr_out : Option String) : Bool :=
  let t := pyLower (stderr_out.getD "")
  containsSub t "http error 403" ||
  containsSub t "forbidden" ||
  containsSub t "429" ||
  containsSub t "too many requests" ||
  containsSub t "sign in to confirm your age" ||
  containsSub t "playback on other websites has been disabled by the video owner"

/-- The fields of a resolved metadata dictionary that `_Entry.__init__`
reads (`None`-able values are `Option`; an absent key and a `None` value
coincide in `dict.get`). -/
structure RawData where
  id : Option String
  display_id : Option String
  title : Option String
  uploader : Option String
  webpage_url : Option String
  url : Option String
  upload_date : Option String
  description : Option String
deriving DecidableEq

/-- Model of `downloader._Entry`. -/
structure Entry where
  id : Option String
  title : String
  uploader : String
  url : Option String
  album : Option String
  upload_date : Option String
  description : String
deriving DecidableEq

/-- Model of `_Entry.__init__(data)`. -/
def mkEntry (d : RawData) : Entry :=
  let title := d.title.getD "Unknown Title"
  { id := pyOrStr d.id d.display_id
    title := title
    uploader := d.uploader.getD "Unknown Artist"
    url := pyOrStr d.webpage_url d.url
    album := if containsSub (pyLower title) "nightcore" then some "Nightcore" else none
    upload_date :=
      match d.upload_date with
      | some s =>
        if s.length = 8 then
          some (String.mk (s.data.take 4) ++ "-" ++ String.mk ((s.data.drop 4).take 2) ++ "-"
            ++ String.mk (s.data.drop 6))
        else none
      | none => none
    description := pyStrip ((pyOrStr d.description (some "")).getD "") }

/-- A top-level result of `ydl.extract_info`: its own fields plus the
optional `entries` list (children may be `None`, modelled as `none`). -/
structure MData where
  entries : Option (List (Option RawData))
  self : RawData
deriving DecidableEq

/-- Lines 155–159 of `run`: a truthy (non-empty) `entries` list expands to
one `_Entry` per truthy child, otherwise the dictionary itself becomes one
`_Entry`. -/
def expandMData (d : MData) : List Entry :=
  match d.entries with
  | some l => if l = [] then [mkEntry d.self] else (l.filterMap id).map mkEntry
  | none => [mkEntry d.self]

/-- A record of the persistent song cache (`song-list.json`). -/
structure Record where
  id : Option String
  title : Option String
  artist : Option String
  url : Option String
  date : Option String
  cover : Option String
deriving DecidableEq

/-- The in-memory song cache: a Python `dict`, i.e. an insertion-ordered
association list with distinct keys. -/
abbrev Cache := List (String × Record)

/-- Python `dict` assignment `d[k] = v`: replace in place, else append. -/
def dictInsert : Cache → String → Record → Cache
  | [], k, r => [(k, r)]
  | (k', r') :: rest, k, r =>
    if k' = k then (k', r) :: rest else (k', r') :: dictInsert rest k r

/-- Python `k in d`. -/
def hasKey (c : Cache) (k : String) : Bool := c.any (fun kr => kr.1 = k)

/-- The key `_load_song_cache` computes for a record:
`s.get("id") or f"{s.get('title')}|{s.get('artist')}"`. -/
def keyOfRecord (r : Record) : String :=
  if pyTruthyStr r.id then r.id.getD "" else pyShow r.title ++ "|" ++ pyShow r.artist

/-- Model of `downloader.Downloader._save_song_cache`: the JSON file holds
`list(self._song_cache.values())` (serialisation is modelled as identity on
records). -/
def save_song_cache (c : Cache) : List Record := c.map Prod.snd

/-- Model of `downloader.Downloader._load_song_cache`: rebuild the dict from the
record list, keyed by `keyOfRecord`. -/
def load_song_cache (items : List Record) : Cache :=
  items.foldl (fun c s => dictInsert c (keyOfRecord s) s) []

/-- The key under which `_process_entry` caches a completed entry:
`entry.id or f"{entry.title}|{entry.uploader}"`. -/
def cacheKey (e : Entry) : String :=
  if pyTruthyStr e.id then e.id.getD "" else e.title ++ "|" ++ e.uploader

/-- Model of `downloader.Downloader._is_duplicate(entry)`; `files` is the list of
file names in the user's output directory, scanned by
`self.out_dir.glob(f"*{sanitized}*")`. -/
def is_duplicate (cache : Cache) (files : List String) (e : Entry) : Bool :=
  if pyTruthyStr e.id ∧ hasKey cache (e.id.getD "") then true
  else if hasKey cache (e.title ++ "|" ++ e.uploader) then true
  else files.any (fun f =>
    globContains (sanitize_filename (e.title ++ " # " ++ e.uploader)).data f.data)

/-- Model of `downloader.Downloader._check_disk_space(required_mb)`.  `free` is
`shutil.disk_usage(out_dir).free` in bytes (`none`: the `stat` call raised,
which the source treats as enough space).  `free` is an integer below
`2^53`, so the float comparison `free/2**20 < required_mb` is exact. -/
def check_disk_space (free : Option Nat) (required_mb : Nat) : Bool :=
  match free with
  | none => true
  | some f => if f < required_mb * 1048576 then false else true

/-! ## `ytnd/downloader.py`: the pipeline -/

/-- Outcome of one `ydl.extract_info(eff_url, download=False)` call as seen
by `_fetch_metadata`: data, a falsy result, a `yt_dlp.utils.DownloadError`,
or another exception. -/
inductive ExtractRes where
  | ok (d : MData)
  | nodata
  | dlerr (e : String)
  | exc (e : String)

/-- Model of `downloader.DownloadError` (the exception `_process_entry` raises). -/
structure DownloadErrData where
  entry : Entry
  msg : String
  stderrTxt : Option String
  attempt : Nat
deriving DecidableEq

/-- One element of the `failed` list of a run summary. -/
structure FailRec where
  title : String
  artist : String
  url : Option String
  reason : String
  attempts : Nat
deriving DecidableEq

/-- The dictionary `run` returns. -/
structure RunResult where
  downloaded : Nat
  duplicates : Nat
  errors : Nat
  failed : List FailRec
deriving DecidableEq

/-- The environment of one `Downloader` object and one `run` call: the
state read at run start plus oracles for every external call.
* `queue`: the stored queue rows for this user (`database.get_queue`);
* `diskFree`: `shutil.disk_usage(out_dir).free` (`none`: `stat` raised);
* `cache`: `self._song_cache` as loaded in `__init__`;
* `files`: the file names in the user's output directory at dedup time;
* `parseUrl`: `urllib.parse.urlparse`;
* `extract`: `ydl.extract_info(·, download=False)` keyed by effective URL;
* `dl`: `ydl.download([entry.url])` keyed by entry and attempt number,
  returning `(res_code, err_msg)` with `err_msg = none` when no exception
  was raised;
* `produced`: the final names of the files the download of an entry leaves
  behind (the glob-and-rename loop, names after the `uid_` prefix);
* `tagRaises`: whether `_set_tags` raises on a given file (`some` is the
  exception text) — the source swallows this;
* `cover`: `_save_cover(entry)` — `Except.error` models a raised exception,
  `Except.ok` the returned optional cover file name. -/
structure Cfg where
  queue : List String
  diskFree : Option Nat
  cache : Cache
  files : List String
  parseUrl : String → Url
  extract : String → ExtractRes
  dl : Entry → Nat → Nat × Option String
  produced : Entry → List String
  tagRaises : Entry → String → Option String
  cover : Entry → Except String (Option String)

/-- The URL `_fetch_metadata` hands to the extractor:
`url if is_pl else strip_playlist_context(url)`. -/
def effUrl (cfg : Cfg) (url : String) : String :=
  if is_youtube_playlist_url url (cfg.parseUrl url) then url
  else strip_playlist_context url (cfg.parseUrl url)

/-- Model of `downloader.Downloader._fetch_metadata(url)`: the returned
`(data | None, error | None)` pair. -/
def fetch_metadata (cfg : Cfg) (url : String) : Option MData × Option String :=
  match cfg.extract (effUrl cfg url) with
  | ExtractRes.ok d => (some d, none)
  | ExtractRes.nodata => (none, some "No metadata received")
  | ExtractRes.dlerr e => (none, some ("yt-dlp error: " ++ e))
  | ExtractRes.exc e => (none, some ("Metadata fetch error: " ++ e))

/-- The test `if err or not data:` of `run` (lines 144–153). -/
def isMetaFail (p : Option MData × Option String) : Bool :=
  pyTruthyStr p.2 || p.1.isNone

/-- The reason recorded for a metadata failure: `err or "No metadata"`. -/
def metaReason (p : Option MData × Option String) : String :=
  if pyTruthyStr p.2 then p.2.getD "" else "No metadata"

/-- The `failed_meta` list `run` accumulates over the zipped
`(meta_results, urls)`. -/
def metaFails (cfg : Cfg) : List FailRec :=
  cfg.queue.filterMap (fun u =>
    let p := fetch_metadata cfg u
    if isMetaFail p then some ⟨"—", "—", some u, metaReason p, 0⟩ else none)

/-- The expanded entry list `run` builds from the successful metadata
results (playlist children flattened, lines 144–159). -/
def expandAll (cfg : Cfg) : List Entry :=
  (cfg.queue.map (fun u =>
    let p := fetch_metadata cfg u
    if isMetaFail p then []
    else match p.1 with
      | some d => expandMData d
      | none => [])).flatten

/-- The entries that survive the duplicate filter (line 163). -/
def survivors (cfg : Cfg) : List Entry :=
  (expandAll cfg).filter (fun e => ¬ is_duplicate cfg.cache cfg.files e)

/-- The success tail of `_process_entry` (lines 329–352): rename the
produced files, attempt tagging on each (exceptions swallowed), attempt the
cover fetch (exceptions swallowed, cover becomes `None`), insert the song
cache record.  Returns the updated cache. -/
def processSuccess (cfg : Cfg) (cache : Cache) (e : Entry) : Cache :=
  let _tagOutcomes := (cfg.produced e).map (fun f => cfg.tagRaises e f)
  let coverFilename :=
    match cfg.cover e with
    | Except.ok c => c
    | Except.error _ => none
  let r : Record :=
    { id := e.id, title := some e.title, artist := some e.uploader,
      url := e.url, date := e.upload_date, cover := coverFilename }
  dictInsert cache (cacheKey e) r

/-- Model of `downloader.Downloader._process_entry(entry)`: result (`Except.error`
models the raised `DownloadError`), updated cache, and the number of
download attempts actually made. -/
def process_entry (cfg : Cfg) (cache : Cache) (e : Entry) :
    Except DownloadErrData Unit × Cache × Nat :=
  let r1 := cfg.dl e 1
  if r1.1 ≠ 0 then
    if needs_android_client r1.2 then
      let r2 := cfg.dl e 2
      if r2.1 ≠ 0 then
        (Except.error ⟨e, "yt-dlp exit: " ++ shorten r2.2, r2.2, 2⟩, cache, 2)
      else (Except.ok (), processSuccess cfg cache e, 2)
    else (Except.error ⟨e, "yt-dlp exit: " ++ shorten r1.2, r1.2, 1⟩, cache, 1)
  else (Except.ok (), processSuccess cfg cache e, 1)

/-- The `failed_list` element built from a caught `DownloadError`
(lines 195–203; `reason` is `dex.msg or "unknown error"`). -/
def failRecOfErr (d : DownloadErrData) : FailRec :=
  ⟨d.entry.title, d.entry.uploader, d.entry.url,
   (if d.msg = "" then "unknown error" else d.msg), d.attempt⟩

/-- Accumulator of the download phase: successes, failure records, the
shared song cache, number of download calls made. -/
structure DlAcc where
  succ : Nat
  failedL : List FailRec
  cache : Cache
  calls : Nat
deriving DecidableEq

/-- Processing of one future's result in the download phase of `run`. -/
def dlStep (cfg : Cfg) (a : DlAcc) (e : Entry) : DlAcc :=
  match process_entry cfg a.cache e with
  | (Except.ok _, c', n) => ⟨a.succ + 1, a.failedL, c', a.calls + n⟩
  | (Except.error d, c', n) => ⟨a.succ, a.failedL ++ [failRecOfErr d], c', a.calls + n⟩

/-- The synthetic failure entry of the disk-space abort (lines 130–135). -/
def syntheticDiskFail : FailRec :=
  ⟨"—", "—", some "—", "Insufficient disk space", 0⟩

/-- Observable outcome of one `run` call: the returned summary, the final
stored queue, the final in-memory song cache, the effective URLs handed to
metadata extraction, the number of download invocations, the number of
disk-space checks, the queue states written, and the number of song-cache
writes. -/
structure RunOut where
  result : RunResult
  queueFinal : List String
  cacheFinal : Cache
  extractCalls : List String
  dlCalls : Nat
  diskChecks : Nat
  queueSaves : List (List String)
  cacheSaves : Nat

/-- Model of `downloader.Downloader.run(workers)` (lines 122–236).  The two thread
pools are iterated sequentially; all returned aggregates are
order-insensitive.  The queue store is reliable here (`database` failures
are modelled separately by `load_queue`/`save_queue`). -/
def run (cfg : Cfg) : RunOut :=
  if cfg.queue = [] then
    ⟨⟨0, 0, 0, []⟩, cfg.queue, cfg.cache, [], 0, 0, [], 0⟩
  else if check_disk_space cfg.diskFree 100 = false then
    ⟨⟨0, 0, 1, [syntheticDiskFail]⟩, cfg.queue, cfg.cache, [], 0, 1, [], 0⟩
  else
    let calls := cfg.queue.map (effUrl cfg)
    let failedMeta := metaFails cfg
    let entries := expandAll cfg
    let rawCount := entries.length
    let surv := entries.filter (fun e => ¬ is_duplicate cfg.cache cfg.files e)
    let dupCount := rawCount - surv.length
    if surv = [] then
      ⟨⟨0, dupCount, failedMeta.length, failedMeta⟩, [], cfg.cache, calls, 0, 1, [[]], 0⟩
    else
      let a := surv.foldl (dlStep cfg) ⟨0, [], cfg.cache, 0⟩
      ⟨⟨a.succ, dupCount, (failedMeta ++ a.failedL).length, failedMeta ++ a.failedL⟩,
       [], a.cache, calls, a.calls, 1, [[]], 1⟩

/-! ## Queue persistence (`_load_queue`, `_save_queue`, `add_urls`) -/

/-- Model of `downloader.Downloader._load_queue`: `database.get_queue` may raise
(`Except.error`); the handler logs and returns `[]`. -/
def load_queue (store : Except String (List String)) : List String :=
  match store with
  | Except.ok q => q
  | Except.error _ => []

/-- Model of `downloader.Downloader._save_queue`: `database.set_queue` may raise;
the handler logs and re-raises `RuntimeError(f"Cannot save queue: {e}")`. -/
def save_queue (setResult : Except String Unit) : Except String Unit :=
  match setResult with
  | Except.ok _ => Except.ok ()
  | Except.error e => Except.error ("Cannot save queue: " ++ e)

/-- The `new_urls` filter of `downloader.Downloader.add_urls` (lines
104–109): strip, drop empty / over-long / already-queued URLs. -/
def addUrlsNew (queue urls : List String) : List String :=
  urls.foldl (fun acc u =>
    let t := pyStrip u
    if t ≠ "" ∧ t.length ≤ 2000 ∧ t ∉ queue then acc ++ [t] else acc) []

/-- Model of `add_urls` followed by `database.add_to_queue`: the surviving new URLs
are appended, in order, after the existing queue rows. -/
def add_urls (queue urls : List String) : List String :=
  queue ++ addUrlsNew queue urls

/-! ## Derived notions used in theorem statements -/

/-- Whether the two-tier download of `_process_entry` ends in success. -/
def dlSucceeds (cfg : Cfg) (e : Entry) : Bool :=
  if (cfg.dl e 1).1 = 0 then true
  else if needs_android_client (cfg.dl e 1).2 then
    (if (cfg.dl e 2).1 = 0 then true else false)
  else false

/-- The number of download attempts `_process_entry` makes for an entry. -/
def entryAttempts (cfg : Cfg) (e : Entry) : Nat :=
  if (cfg.dl e 1).1 = 0 then 1
  else if needs_android_client (cfg.dl e 1).2 then 2
  else 1

/-- The `DownloadError` value `_process_entry` raises when the download of
an entry fails terminally. -/
def mkDlErr (cfg : Cfg) (e : Entry) : DownloadErrData :=
  if needs_android_client (cfg.dl e 1).2 then
    ⟨e, "yt-dlp exit: " ++ shorten (cfg.dl e 2).2, (cfg.dl e 2).2, 2⟩
  else
    ⟨e, "yt-dlp exit: " ++ shorten (cfg.dl e 1).2, (cfg.dl e 1).2, 1⟩

/-- The failure record `run` appends for an entry whose download fails. -/
def mkDlFail (cfg : Cfg) (e : Entry) : FailRec :=
  failRecOfErr (mkDlErr cfg e)

/-! ## Claim C1: attempt counts of the download executor -/

/-- C1 — For every entry processed by the download executor the number
of attempts made, and the attempt count recorded in a raised
`DownloadError`, is 1 or 2; it is 2 exactly when the first download attempt
failed (`res_code ≠ 0`) with an error text matching the blocked-access
signal set `_needs_android_client` (HTTP 403 / "forbidden", "429" / "too
many requests", age-verification prompt, "disabled by owner"); a first
failure not matching the set is terminal with attempt count 1 and no second
download call is made. -/
theorem process_entry_attempts (cfg : Cfg) (cache : Cache) (e : Entry) :
    ((process_entry cfg cache e).2.2 = 1 ∨ (process_entry cfg cache e).2.2 = 2) ∧
    ((process_entry cfg cache e).2.2 = 2 ↔
      (cfg.dl e 1).1 ≠ 0 ∧ needs_android_client (cfg.dl e 1).2 = true) ∧
    (∀ d, (process_entry cfg cache e).1 = Except.error d →
      d.attempt = (process_entry cfg cache e).2.2) ∧
    ((cfg.dl e 1).1 ≠ 0 → needs_android_client (cfg.dl e 1).2 = false →
      (process_entry cfg cache e).1 =
        Except.error ⟨e, "yt-dlp exit: " ++ shorten (cfg.dl e 1).2, (cfg.dl e 1).2, 1⟩ ∧
      (process_entry cfg cache e).2.2 = 1) := by
  by_cases h1 : (cfg.dl e 1).1 = 0
  · simp [process_entry, h1]
  · by_cases h2 : needs_android_client (cfg.dl e 1).2
    · by_cases h3 : (cfg.dl e 2).1 = 0
      · simp [process_entry, h1, h2, h3]
      · simp [process_entry, h1, h2, h3]
    · simp [process_entry, h1, h2]

/-- Concrete instantiation of `process_entry_attempts`: a 403-style first
failure followed by a failing android-client retry records attempt 2. -/
def cfgC1 : Cfg :=
  { queue := ["u1"], diskFree := none, cache := [], files := []
    parseUrl := fun _ => ⟨"", "", "", "", "", ""⟩
    extract := fun _ => ExtractRes.nodata
    dl := fun _ n => if n = 1 then (1, some "HTTP Error 403: Forbidden") else (1, some "broken")
    produced := fun _ => []
    tagRaises := fun _ _ => none
    cover := fun _ => Except.ok none }

/-- Entry used to instantiate `process_entry_attempts`. -/
def entryC1 : Entry :=
  ⟨some "v1", "T", "A", some "http://x", none, none, ""⟩

/-- Witness for C1: at `cfgC1`, the first attempt fails with a blocked-access
signal, so exactly two attempts are made and the raised error records 2. -/
theorem process_entry_attempts_witness :
    (process_entry cfgC1 [] entryC1).2.2 = 2 ∧
    (process_entry cfgC1 [] entryC1).1 =
      Except.error ⟨entryC1, "yt-dlp exit: broken", some "broken", 2⟩ := by
  have h := process_entry_attempts cfgC1 [] entryC1
  refine ⟨h.2.1.mpr ⟨by decide, by decide⟩, by rfl⟩

/-! ## Claim C2: the queue after `run` -/

/-- Configuration refuting C2: a non-empty queue and 17 free bytes. -/
def cfgC2 : Cfg :=
  { queue := ["https://www.youtube.com/watch?v=a"], diskFree := some 17, cache := [], files := []
    parseUrl := fun _ => ⟨"", "", "", "", "", ""⟩
    extract := fun _ => ExtractRes.nodata
    dl := fun _ _ => (0, none)
    produced := fun _ => []
    tagRaises := fun _ _ => none
    cover := fun _ => Except.ok none }

/-- C2, counterexample — the claim "the queue is empty after every
`run()` call, including a disk-space abort" is false: when the disk-space
precheck fails, `run` returns at line 130 without ever writing the queue,
so the stored queue is still the original non-empty one. -/
theorem run_queue_cex : (run cfgC2).queueFinal = ["https://www.youtube.com/watch?v=a"] ∧
    (run cfgC2).queueFinal ≠ [] := by
  exact ⟨by rfl, by decide⟩

/-- C2, amended — After a `run(user)` call the user's queue is empty,
except when the run aborted on the disk-space precondition (non-empty queue
and the precheck failing), in which case the queue is left exactly as it
was. -/
theorem run_queue_final (cfg : Cfg) :
    (run cfg).queueFinal =
      (if cfg.queue ≠ [] ∧ check_disk_space cfg.diskFree 100 = false then cfg.queue else []) := by
  by_cases hq : cfg.queue = []
  · simp [run, hq]
  · by_cases hd : check_disk_space cfg.diskFree 100 = false
    · simp [run, hq, hd]
    · have hd' : check_disk_space cfg.diskFree 100 = true := by
        cases h : check_disk_space cfg.diskFree 100
        · exact absurd h hd
        · rfl
      simp only [run, hq, hd', if_neg, Bool.true_eq_false, reduceIte]
      split
      · simp [hq, hd']
      · simp [hq, hd']

/-! ## Claim C3: the disk-space abort -/

/-- C3 — If at run start the queue is non-empty and the free space of
the output volume is below the 100 MB threshold, `run` makes no extraction
and no download call and returns exactly
`{downloaded: 0, duplicates: 0, errors: 1,
  failed: [{title "—", artist "—", url "—",
            reason "Insufficient disk space", attempts 0}]}`. -/
theorem run_disk_abort (cfg : Cfg) (f : Nat) (hq : cfg.queue ≠ [])
    (hf : cfg.diskFree = some f) (hlt : f < 100 * 1048576) :
    (run cfg).result = ⟨0, 0, 1, [⟨"—", "—", some "—", "Insufficient disk space", 0⟩]⟩ ∧
    (run cfg).extractCalls = [] ∧ (run cfg).dlCalls = 0 := by
  have hd : check_disk_space cfg.diskFree 100 = false := by
    simp [check_disk_space, hf, hlt]
  simp [run, hq, hd, syntheticDiskFail]

/-- Configuration instantiating C3. -/
def cfgC3 : Cfg :=
  { queue := ["https://youtu.be/xyz"], diskFree := some 0, cache := [], files := []
    parseUrl := fun _ => ⟨"", "", "", "", "", ""⟩
    extract := fun _ => ExtractRes.nodata
    dl := fun _ _ => (0, none)
    produced := fun _ => []
    tagRaises := fun _ _ => none
    cover := fun _ => Except.ok none }

/-- Witness for C3 at `cfgC3` (zero free bytes, one queued URL). -/
theorem run_disk_abort_witness :
    (run cfgC3).result = ⟨0, 0, 1, [⟨"—", "—", some "—", "Insufficient disk space", 0⟩]⟩ ∧
    (run cfgC3).extractCalls = [] ∧ (run cfgC3).dlCalls = 0 := by
  exact run_disk_abort cfgC3 0 (by decide) (by rfl) (by decide)

/-! ## Claim C10: the empty-queue fast path -/

/-- C10 — For a user with an empty queue, `run` returns
`{downloaded: 0, duplicates: 0, errors: 0, failed: []}` immediately: no
disk-space check, no metadata extraction, no download call, no queue-store
write and no song-cache write happen — in particular the disk-space
precondition is never reported for an empty queue, whatever `diskFree` is. -/
theorem run_empty_queue (cfg : Cfg) (hq : cfg.queue = []) :
    (run cfg).result = ⟨0, 0, 0, []⟩ ∧
    (run cfg).diskChecks = 0 ∧
    (run cfg).extractCalls = [] ∧ (run cfg).dlCalls = 0 ∧
    (run cfg).queueSaves = [] ∧ (run cfg).cacheSaves = 0 := by
  simp [run, hq]

/-- Configuration instantiating C10: empty queue and zero free bytes. -/
def cfgC10 : Cfg :=
  { queue := [], diskFree := some 0, cache := [], files := []
    parseUrl := fun _ => ⟨"", "", "", "", "", ""⟩
    extract := fun _ => ExtractRes.nodata
    dl := fun _ _ => (0, none)
    produced := fun _ => []
    tagRaises := fun _ _ => none
    cover := fun _ => Except.ok none }

/-- Witness for C10: empty queue with free space below the threshold still
returns the all-zero summary without a disk check. -/
theorem run_empty_queue_witness :
    (run cfgC10).result = ⟨0, 0, 0, []⟩ ∧
    (run cfgC10).diskChecks = 0 ∧
    (run cfgC10).extractCalls = [] ∧ (run cfgC10).dlCalls = 0 ∧
    (run cfgC10).queueSaves = [] ∧ (run cfgC10).cacheSaves = 0 := by
  exact run_empty_queue cfgC10 (by rfl)

/-! ## Claim C5: propagation of queue-store failures -/

/-- Configuration refuting C5: the stored queue of the run is whatever
`_load_queue` yields when `database.get_queue` raises. -/
def cfgC5 : Cfg :=
  { queue := load_queue (Except.error "database is locked")
    diskFree := some 0, cache := [], files := []
    parseUrl := fun _ => ⟨"", "", "", "", "", ""⟩
    extract := fun _ => ExtractRes.nodata
    dl := fun _ _ => (0, none)
    produced := fun _ => []
    tagRaises := fun _ _ => none
    cover := fun _ => Except.ok none }

/-- C5, counterexample — the claim that a failing queue load is
propagated to the caller is false: `_load_queue` catches the storage error
and returns `[]`, and `run` then proceeds exactly as for an empty queue,
returning the normal all-zero summary instead of an error. -/
theorem load_queue_cex :
    load_queue (Except.error "database is locked") = [] ∧
    (run cfgC5).result = ⟨0, 0, 0, []⟩ := by
  exact ⟨by rfl, by rfl⟩

/-- C5, amended — A storage-layer failure of the queue *save* is
propagated to the caller (re-raised as `RuntimeError("Cannot save queue:
...")`), but a storage-layer failure of the queue *load* is swallowed:
`_load_queue` logs it and returns the empty list, so the operation proceeds
as if the queue were empty. -/
theorem queue_store_failures (e : String) (q : List String) :
    load_queue (Except.error e) = [] ∧
    load_queue (Except.ok q) = q ∧
    save_queue (Except.error e) = Except.error ("Cannot save queue: " ++ e) ∧
    save_queue (Except.ok ()) = Except.ok () := by
  exact ⟨rfl, rfl, rfl, rfl⟩

/-! ## Claim C8: `add_urls` -/

/-- The insertion condition of `add_urls` for a stripped URL `t`: non-empty,
at most 2000 characters, not already a row of the stored queue. -/
def addKeeps (queue : List String) (t : String) : Bool :=
  if t ≠ "" ∧ t.length ≤ 2000 ∧ t ∉ queue then true else false

/-- C8, counterexample — the claim that no URL occurs twice in the
queue after `append`, even when `newUrls` repeats it, is false: the loop
checks membership only against the queue loaded *before* the call, not
against the batch collected so far, so `add_urls [] ["a", "a"]` inserts
`"a"` twice. -/
theorem add_urls_cex :
    add_urls [] ["a", "a"] = ["a", "a"] ∧
    (add_urls [] ["a", "a"]).count "a" = 2 := by
  exact ⟨by decide, by decide⟩

/-- The `new_urls` loop, for any starting accumulator. -/
theorem addUrlsNew_aux (queue : List String) : ∀ (urls acc : List String),
    urls.foldl (fun acc u =>
      let t := pyStrip u
      if t ≠ "" ∧ t.length ≤ 2000 ∧ t ∉ queue then acc ++ [t] else acc) acc
    = acc ++ (urls.map pyStrip).filter (addKeeps queue)
  | [], acc => by simp
  | u :: us, acc => by
    rw [List.foldl_cons, addUrlsNew_aux queue us]
    by_cases h : pyStrip u ≠ "" ∧ (pyStrip u).length ≤ 2000 ∧ pyStrip u ∉ queue
    · simp [h, addKeeps]
    · simp [h, addKeeps]

/-- C8, amended — `append(user, newUrls)` appends, after the existing
rows and in input order, exactly those input URLs that after whitespace
trimming are non-empty, at most 2000 characters long and not already
present in the stored queue under verbatim string equality; a URL occurring
several times within `newUrls` (and not in the stored queue) is inserted
that many times, so intra-batch duplicates are not collapsed. -/
theorem add_urls_characterization (queue urls : List String) :
    add_urls queue urls = queue ++ (urls.map pyStrip).filter (addKeeps queue) := by
  unfold add_urls addUrlsNew
  rw [addUrlsNew_aux queue urls []]
  rfl

/-! ## Claim C9: song-cache round trip -/

/-- Keys of an association list. -/
def keysOf (c : Cache) : List String := c.map Prod.fst

theorem dictInsert_fresh (c : Cache) (k : String) (r : Record)
    (h : ∀ p ∈ c, p.1 ≠ k) : dictInsert c k r = c ++ [(k, r)] := by
  induction c with
  | nil => rfl
  | cons p rest ih =>
    have hp : p.1 ≠ k := h p (List.mem_cons_self p rest)
    obtain ⟨k', r'⟩ := p
    simp only [dictInsert, if_neg hp, List.cons_append, List.cons.injEq, true_and]
    exact ih (fun q hq => h q (List.mem_cons_of_mem _ hq))

theorem load_save_aux : ∀ (c acc : Cache),
    (∀ p ∈ c, p.1 = keyOfRecord p.2) →
    (∀ p ∈ acc, ∀ q ∈ c, p.1 ≠ q.1) →
    (keysOf c).Nodup →
    (c.map Prod.snd).foldl (fun m s => dictInsert m (keyOfRecord s) s) acc = acc ++ c
  | [], acc, _, _, _ => by simp
  | (k, r) :: rest, acc, hcons, hdisj, hnodup => by
    have hk : keyOfRecord r = k := (hcons (k, r) (List.mem_cons_self _ _)).symm
    have hfresh : ∀ p ∈ acc, p.1 ≠ keyOfRecord r := by
      intro p hp
      rw [hk]
      exact hdisj p hp (k, r) (List.mem_cons_self _ _)
    have hknotin : k ∉ keysOf rest := by
      have := hnodup
      simp only [keysOf, List.map_cons, List.nodup_cons] at this
      exact this.1
    rw [List.map_cons, List.foldl_cons, dictInsert_fresh acc (keyOfRecord r) r hfresh, hk]
    rw [load_save_aux rest (acc ++ [(k, r)])
      (fun p hp => hcons p (List.mem_cons_of_mem _ hp))
      (by
        intro p hp q hq
        rcases List.mem_append.mp hp with hpa | hpk
        · exact hdisj p hpa q (List.mem_cons_of_mem _ hq)
        · have hpk' : p = (k, r) := List.mem_singleton.mp hpk
          subst hpk'
          intro hbad
          refine hknotin ?_
          rw [show k = q.1 from hbad]
          exact List.mem_map_of_mem Prod.fst hq)
      (by
        have := hnodup
        simp only [keysOf, List.map_cons, List.nodup_cons] at this
        exact this.2)]
    simp

/-- C9 — For a song cache whose keys are consistent with its records
(every key is `id` if truthy, else `title|artist` — the invariant both
`_load_song_cache` and the insert in `_process_entry` establish) and
distinct (a Python `dict`), saving the cache and reloading it yields the
identical cache, keyed identically; consequently every deduplication
decision against the reloaded cache equals the decision against the
original. -/
theorem song_cache_roundtrip (c : Cache)
    (h1 : ∀ p ∈ c, p.1 = keyOfRecord p.2)
    (h2 : (keysOf c).Nodup) :
    load_song_cache (save_song_cache c) = c ∧
    ∀ (files : List String) (e : Entry),
      is_duplicate (load_song_cache (save_song_cache c)) files e =
        is_duplicate c files e := by
  have hrt : load_song_cache (save_song_cache c) = c := by
    unfold load_song_cache save_song_cache
    rw [load_save_aux c [] h1 (by intro p hp; exact absurd hp (List.not_mem_nil p)) h2]
    rfl
  exact ⟨hrt, fun files e => by rw [hrt]⟩

/-- Cache instantiating C9: one record keyed by id, one by title|artist. -/
def cacheC9 : Cache :=
  [("vid1", ⟨some "vid1", some "T", some "A", some "http://x", none, none⟩),
   ("T2|A2", ⟨none, some "T2", some "A2", none, none, some "c.jpg"⟩)]

/-- Witness for C9 at `cacheC9`: the round trip is the identity and the
dedup decision for an entry matching the second record is preserved. -/
theorem song_cache_roundtrip_witness :
    load_song_cache (save_song_cache cacheC9) = cacheC9 ∧
    is_duplicate (load_song_cache (save_song_cache cacheC9)) []
        ⟨none, "T2", "A2", none, none, none, ""⟩ =
      is_duplicate cacheC9 [] ⟨none, "T2", "A2", none, none, none, ""⟩ := by
  have h := song_cache_roundtrip cacheC9 (by decide) (by decide)
  exact ⟨h.1, h.2 [] ⟨none, "T2", "A2", none, none, none, ""⟩⟩

/-! ## Claim C4: the duplicate filter -/

/-- A star-free `fnmatch` chunk without `[` matches literally. -/
theorem chunkMatch_no_bracket : ∀ (pat : List Char), '[' ∉ pat → ∀ (t : List Char),
    chunkMatch pat t = (if pat.isPrefixOf t then some (t.drop pat.length) else none)
  | [], _, t => by simp [chunkMatch, List.isPrefixOf]
  | p :: ps, hnb, t => by
    have hp : p ≠ '[' := fun h => hnb (h ▸ List.mem_cons_self p ps)
    have hps : '[' ∉ ps := fun h => hnb (List.mem_cons_of_mem p h)
    cases t with
    | nil => simp [chunkMatch, hp, List.isPrefixOf]
    | cons c ts =>
      by_cases hc : c = p
      · subst hc
        simp [chunkMatch, hp, List.isPrefixOf, chunkMatch_no_bracket ps hps ts]
      · simp [chunkMatch, hp, hc, List.isPrefixOf, beq_eq_false_iff_ne.mpr (fun h => hc h.symm)]

/-- For a pattern body without `[`, the glob `*pat*` says exactly
"`pat` occurs as a contiguous substring". -/
theorem globContains_no_bracket (pat : List Char) (hnb : '[' ∉ pat) :
    ∀ (name : List Char), globContains pat name = containsList pat name := by
  intro name
  induction name with
  | nil =>
    by_cases h : pat = []
    · subst h
      simp [globContains, containsList, chunkMatch, List.isPrefixOf]
    · have hpf : pat.isPrefixOf ([] : List Char) = false := by
        cases pat with
        | nil => exact absurd rfl h
        | cons a as => rfl
      simp [globContains, containsList, chunkMatch_no_bracket pat hnb, hpf]
  | cons c rest ih =>
    simp only [globContains, containsList, ih, chunkMatch_no_bracket pat hnb]
    by_cases h : pat.isPrefixOf (c :: rest)
    · simp [h]
    · simp [h]

/-- The duplicate condition exactly as the claim words it: the id is a key
of the cache, or `title|uploader` is a key, or some file name *contains*
the sanitised `title # uploader` string. -/
def claimedDuplicate (cache : Cache) (files : List String) (e : Entry) : Bool :=
  (match e.id with
   | some i => hasKey cache i
   | none => false) ||
  hasKey cache (e.title ++ "|" ++ e.uploader) ||
  files.any (fun f =>
    containsList (sanitize_filename (e.title ++ " # " ++ e.uploader)).data f.data)

/-- C4, counterexample — the claim's "some file name contains the
sanitized `title # uploader` string" is false for the code: the scan is a
shell glob, in which a bracket pair of the title acts as a character class.
For the entry titled `[ab]` by `u`, the file `[ab] # u.opus` contains the
sanitized string `[ab] # u`, yet `_is_duplicate` reports no duplicate. -/
theorem is_duplicate_cex :
    claimedDuplicate [] ["[ab] # u.opus"] ⟨none, "[ab]", "u", none, none, none, ""⟩ = true ∧
    is_duplicate [] ["[ab] # u.opus"] ⟨none, "[ab]", "u", none, none, none, ""⟩ = false := by
  exact ⟨by decide, by decide⟩

/-- C4, amended — An expanded entry is filtered as a duplicate iff its
id is truthy (present and non-empty) and a key of the run-start song cache,
or `title|uploader` is a key of that cache, or the shell glob pattern
`*sanitized(title # uploader)*` matches some file name of the user's output
directory; when the sanitised string contains no `[` the glob clause is
exactly "some file name contains the sanitised string" (the claim's
wording).  The reported duplicates count equals the number of entries after
expansion minus the number of entries surviving the filter. -/
theorem dup_filter_characterization :
    (∀ (cache : Cache) (files : List String) (e : Entry),
      e.id ≠ some "" →
      '[' ∉ (sanitize_filename (e.title ++ " # " ++ e.uploader)).data →
      is_duplicate cache files e = claimedDuplicate cache files e) ∧
    (∀ cfg : Cfg, cfg.queue ≠ [] → check_disk_space cfg.diskFree 100 = true →
      (run cfg).result.duplicates = (expandAll cfg).length - (survivors cfg).length) := by
  constructor
  · intro cache files e hid hnb
    have hglob : ∀ f : String,
        globContains (sanitize_filename (e.title ++ " # " ++ e.uploader)).data f.data =
        containsList (sanitize_filename (e.title ++ " # " ++ e.uploader)).data f.data :=
      fun f => globContains_no_bracket _ hnb f.data
    cases he : e.id with
    | none =>
      simp only [is_duplicate, claimedDuplicate, he, pyTruthyStr, Bool.false_eq_true,
        false_and, if_false, Bool.false_or, hglob]
      by_cases hk : hasKey cache (e.title ++ "|" ++ e.uploader) = true
      · simp [hk]
      · simp only [Bool.not_eq_true] at hk
        simp [hk]
    | some i =>
      have hi : i ≠ "" := fun h => hid (by rw [he, h])
      simp only [is_duplicate, claimedDuplicate, he, pyTruthyStr, Option.getD_some, hglob]
      by_cases hk1 : hasKey cache i = true
      · simp [hk1, hi]
      · simp only [Bool.not_eq_true] at hk1
        by_cases hk : hasKey cache (e.title ++ "|" ++ e.uploader) = true
        · simp [hk1, hk, hi]
        · simp only [Bool.not_eq_true] at hk
          simp [hk1, hk, hi]
  · intro cfg hq hd
    simp only [run, hq, hd, if_neg, Bool.true_eq_false, reduceIte, survivors]
    split
    · rfl
    · rfl

/-- Configuration instantiating the count part of C4: one URL expanding to
two entries, one of which is already cached. -/
def cfgC4 : Cfg :=
  { queue := ["https://www.youtube.com/playlist?list=PL1"], diskFree := none
    cache := [("vidA", ⟨some "vidA", some "TA", some "AA", none, none, none⟩)]
    files := []
    parseUrl := fun _ => ⟨"https", "www.youtube.com", "/playlist", "", "list=PL1", ""⟩
    extract := fun _ => ExtractRes.ok
      ⟨some [some ⟨some "vidA", none, some "TA", some "AA", some "uA", none, none, none⟩,
             some ⟨some "vidB", none, some "TB", some "AB", some "uB", none, none, none⟩],
       ⟨none, none, none, none, none, none, none, none⟩⟩
    dl := fun _ _ => (0, none)
    produced := fun _ => []
    tagRaises := fun _ _ => none
    cover := fun _ => Except.ok none }

/-- Witness for C4: a concrete filter decision matching the amended wording
and the duplicates count of a run with one cached and one new entry. -/
theorem dup_filter_witness :
    is_duplicate [("k1", ⟨some "k1", some "T", some "A", none, none, none⟩)] ["x T # A y.opus"]
        ⟨some "k9", "T", "A", none, none, none, ""⟩ =
      claimedDuplicate [("k1", ⟨some "k1", some "T", some "A", none, none, none⟩)]
        ["x T # A y.opus"] ⟨some "k9", "T", "A", none, none, none, ""⟩ ∧
    (run cfgC4).result.duplicates = (expandAll cfgC4).length - (survivors cfgC4).length ∧
    (run cfgC4).result.duplicates = 1 := by
  refine ⟨dup_filter_characterization.1 _ _ _ (by decide) (by decide),
    dup_filter_characterization.2 cfgC4 (by decide) (by rfl), by rfl⟩

/-! ## Claim C7: tagging/cover failures never fail a downloaded entry -/

theorem hasKey_dictInsert_self (c : Cache) (k : String) (r : Record) :
    hasKey (dictInsert c k r) k = true := by
  induction c with
  | nil => simp [dictInsert, hasKey]
  | cons p rest ih =>
    obtain ⟨k', r'⟩ := p
    by_cases h : k' = k
    · simp [dictInsert, h, hasKey]
    · simp only [dictInsert, if_neg h, hasKey, List.any_cons]
      simp only [hasKey] at ih
      simp [ih]

theorem hasKey_dictInsert_mono (c : Cache) (k : String) (r : Record) (k' : String)
    (h : hasKey c k' = true) : hasKey (dictInsert c k r) k' = true := by
  induction c with
  | nil => simp [hasKey] at h
  | cons p rest ih =>
    obtain ⟨k0, r0⟩ := p
    by_cases hk : k0 = k
    · rw [show dictInsert ((k0, r0) :: rest) k r = (k0, r) :: rest from by
        simp [dictInsert, hk]]
      simp only [hasKey, List.any_cons] at h ⊢
      exact h
    · rw [show dictInsert ((k0, r0) :: rest) k r = (k0, r0) :: dictInsert rest k r from by
        simp [dictInsert, hk]]
      simp only [hasKey, List.any_cons, Bool.or_eq_true] at h ⊢
      rcases h with h1 | h2
      · exact Or.inl h1
      · refine Or.inr ?_
        have := ih (by simpa [hasKey] using h2)
        simpa [hasKey] using this

/-- Lemma: `processSuccess` inserts the entry's cache key. -/
theorem processSuccess_hasKey (cfg : Cfg) (cache : Cache) (e : Entry) :
    hasKey (processSuccess cfg cache e) (cacheKey e) = true := by
  unfold processSuccess
  exact hasKey_dictInsert_self _ _ _

/-- Lemma: `processSuccess` keeps every existing cache key. -/
theorem processSuccess_mono (cfg : Cfg) (cache : Cache) (e : Entry) (k : String)
    (h : hasKey cache k = true) : hasKey (processSuccess cfg cache e) k = true := by
  unfold processSuccess
  exact hasKey_dictInsert_mono _ _ _ _ h

/-- Lemma: `process_entry` on a successful download: whatever the tagging and
cover oracles do, the result is `ok` and the cache gains the entry. -/
theorem process_entry_ok (cfg : Cfg) (cache : Cache) (e : Entry)
    (h : dlSucceeds cfg e = true) :
    process_entry cfg cache e =
      (Except.ok (), processSuccess cfg cache e, entryAttempts cfg e) := by
  unfold dlSucceeds at h
  by_cases h1 : (cfg.dl e 1).1 = 0
  · simp [process_entry, entryAttempts, h1]
  · by_cases h2 : needs_android_client (cfg.dl e 1).2
    · by_cases h3 : (cfg.dl e 2).1 = 0
      · simp [process_entry, entryAttempts, h1, h2, h3]
      · simp [h1, h2, h3] at h
    · simp [h1, h2] at h

/-- Lemma: `process_entry` on a failing download: the raised error is `mkDlErr`,
the cache is untouched. -/
theorem process_entry_err (cfg : Cfg) (cache : Cache) (e : Entry)
    (h : dlSucceeds cfg e = false) :
    process_entry cfg cache e =
      (Except.error (mkDlErr cfg e), cache, entryAttempts cfg e) := by
  unfold dlSucceeds at h
  by_cases h1 : (cfg.dl e 1).1 = 0
  · simp [h1] at h
  · by_cases h2 : needs_android_client (cfg.dl e 1).2
    · by_cases h3 : (cfg.dl e 2).1 = 0
      · simp [h1, h2, h3] at h
      · simp [process_entry, entryAttempts, mkDlErr, h1, h2, h3]
    · simp [process_entry, entryAttempts, mkDlErr, h1, h2]

/-- One download-phase step, characterised by `dlSucceeds`. -/
theorem dlStep_eq (cfg : Cfg) (a : DlAcc) (e : Entry) :
    dlStep cfg a e =
      (if dlSucceeds cfg e = true then
        ⟨a.succ + 1, a.failedL, processSuccess cfg a.cache e, a.calls + entryAttempts cfg e⟩
      else
        ⟨a.succ, a.failedL ++ [mkDlFail cfg e], a.cache, a.calls + entryAttempts cfg e⟩) := by
  by_cases h : dlSucceeds cfg e = true
  · simp [dlStep, process_entry_ok cfg a.cache e h, h]
  · have h' : dlSucceeds cfg e = false := by
      cases hx : dlSucceeds cfg e
      · rfl
      · exact absurd hx h
    simp [dlStep, process_entry_err cfg a.cache e h', h', mkDlFail]

/-- Characterisation of the whole download phase. -/
theorem dlFold (cfg : Cfg) : ∀ (es : List Entry) (a : DlAcc),
    (es.foldl (dlStep cfg) a).succ =
      a.succ + (es.filter (fun e => dlSucceeds cfg e)).length ∧
    (es.foldl (dlStep cfg) a).failedL =
      a.failedL ++ (es.filter (fun e => ¬ dlSucceeds cfg e)).map (mkDlFail cfg) ∧
    (∀ k, hasKey a.cache k = true → hasKey (es.foldl (dlStep cfg) a).cache k = true) ∧
    (∀ e ∈ es, dlSucceeds cfg e = true →
      hasKey (es.foldl (dlStep cfg) a).cache (cacheKey e) = true)
  | [], a => by simp
  | e :: es, a => by
    rw [List.foldl_cons, dlStep_eq cfg a e]
    by_cases h : dlSucceeds cfg e = true
    · have ih := dlFold cfg es
        ⟨a.succ + 1, a.failedL, processSuccess cfg a.cache e, a.calls + entryAttempts cfg e⟩
      refine ⟨?_, ?_, ?_, ?_⟩
      · rw [if_pos h, ih.1]
        simp [h, Nat.add_assoc, Nat.add_comm 1]
      · rw [if_pos h, ih.2.1]
        simp [h]
      · intro k hk
        rw [if_pos h]
        exact ih.2.2.1 k (processSuccess_mono cfg a.cache e k hk)
      · intro e' he' hs
        rw [if_pos h]
        rcases List.mem_cons.mp he' with he1 | he2
        · subst he1
          exact ih.2.2.1 (cacheKey e') (processSuccess_hasKey cfg a.cache e')
        · exact ih.2.2.2 e' he2 hs
    · have ih := dlFold cfg es
        ⟨a.succ, a.failedL ++ [mkDlFail cfg e], a.cache, a.calls + entryAttempts cfg e⟩
      refine ⟨?_, ?_, ?_, ?_⟩
      · rw [if_neg h, ih.1]
        simp [h]
      · rw [if_neg h, ih.2.1]
        simp [h]
      · intro k hk
        rw [if_neg h]
        exact ih.2.2.1 k hk
      · intro e' he' hs
        rw [if_neg h]
        rcases List.mem_cons.mp he' with he1 | he2
        · subst he1
          exact absurd hs h
        · exact ih.2.2.2 e' he2 hs

/-- C7 — In a run that reaches the download phase, the summary depends
only on the metadata results and the download outcomes, never on the
tagging or cover oracles: `downloaded` counts exactly the surviving entries
whose (possibly retried) download succeeds, `failed` consists of exactly
the metadata failures and the entries whose download fails, and every entry
whose download succeeds gets its record inserted into the song cache.  In
particular a failure of the tagging step or the cover-art step (the
`tagRaises` and `cover` oracles are universally quantified here, including
always-failing ones) never turns a downloaded entry into a failure and
never suppresses its cache record. -/
theorem run_tag_cover_immunity (cfg : Cfg) (hq : cfg.queue ≠ [])
    (hd : check_disk_space cfg.diskFree 100 = true) :
    (run cfg).result.downloaded =
      ((survivors cfg).filter (fun e => dlSucceeds cfg e)).length ∧
    (run cfg).result.failed =
      metaFails cfg ++ ((survivors cfg).filter (fun e => ¬ dlSucceeds cfg e)).map (mkDlFail cfg) ∧
    (∀ e ∈ survivors cfg, dlSucceeds cfg e = true →
      hasKey (run cfg).cacheFinal (cacheKey e) = true) := by
  have hfold := dlFold cfg (survivors cfg) ⟨0, [], cfg.cache, 0⟩
  by_cases hs : survivors cfg = []
  · simp only [run, hq, hd, if_neg, Bool.true_eq_false, reduceIte]
    rw [show (expandAll cfg).filter (fun e => ¬ is_duplicate cfg.cache cfg.files e) =
      survivors cfg from rfl, if_pos hs, hs]
    simp
  · simp only [run, hq, hd, if_neg, Bool.true_eq_false, reduceIte]
    rw [show (expandAll cfg).filter (fun e => ¬ is_duplicate cfg.cache cfg.files e) =
      survivors cfg from rfl, if_neg hs]
    refine ⟨?_, ?_, ?_⟩
    · show (List.foldl (dlStep cfg) ⟨0, [], cfg.cache, 0⟩ (survivors cfg)).succ = _
      rw [hfold.1]
      simp
    · show metaFails cfg ++
        (List.foldl (dlStep cfg) ⟨0, [], cfg.cache, 0⟩ (survivors cfg)).failedL = _
      rw [hfold.2.1]
      simp
    · intro e he hsuc
      exact hfold.2.2.2 e he hsuc

/-- Configuration instantiating C7: one resolved entry, download succeeds,
tagging raises on every file and the cover fetch raises. -/
def cfgC7 : Cfg :=
  { queue := ["https://www.youtube.com/watch?v=w"], diskFree := none, cache := [], files := []
    parseUrl := fun _ => ⟨"https", "www.youtube.com", "/watch", "", "v=w", ""⟩
    extract := fun _ => ExtractRes.ok
      ⟨none, ⟨some "vidW", none, some "TW", some "AW", some "uW", none, none, none⟩⟩
    dl := fun _ _ => (0, none)
    produced := fun _ => ["TW # AW.opus"]
    tagRaises := fun _ _ => some "mutagen exploded"
    cover := fun _ => Except.error "cover fetch exploded" }

/-- Entry resolved by `cfgC7`. -/
def entryC7 : Entry := mkEntry ⟨some "vidW", none, some "TW", some "AW", some "uW", none, none, none⟩

/-- Witness for C7: with tagging and cover both failing, the entry is still
counted as downloaded, absent from `failed`, and cached. -/
theorem run_tag_cover_immunity_witness :
    (run cfgC7).result.downloaded = 1 ∧
    (run cfgC7).result.failed = [] ∧
    hasKey (run cfgC7).cacheFinal (cacheKey entryC7) = true := by
  have h := run_tag_cover_immunity cfgC7 (by decide) (by rfl)
  refine ⟨h.1.trans (by rfl), h.2.1.trans (by rfl), ?_⟩
  exact h.2.2 entryC7 (by decide) (by rfl)

/-! ## Claim C6: quote/unquote round trip -/

theorem safeChar_ne (c : Char) (h : safeChar c = true) :
    c ≠ '%' ∧ c ≠ '+' ∧ c ≠ '&' ∧ c ≠ '=' := by
  refine ⟨?_, ?_, ?_, ?_⟩ <;> rintro rfl <;> exact absurd h (by decide)

theorem hexDigitChar_spec : ∀ n : Fin 16,
    hexVal (hexDigitChar n.val) = some n.val ∧ hexDigitChar n.val ≠ '+' ∧
    hexDigitChar n.val ≠ '%' ∧ hexDigitChar n.val ≠ '&' ∧
    hexDigitChar n.val ≠ '=' := by decide

/-- Folding the percent-decoder over the encoding of one character. -/
theorem pct_quote_one (c : Char) (out : List Char) :
    List.foldl pctFoldStep (out, []) (plusToSpace (quoteChar c)) = (c :: out, []) := by
  by_cases hs : safeChar c = true
  · obtain ⟨h1, h2, _, _⟩ := safeChar_ne c hs
    simp only [quoteChar, if_pos hs, plusToSpace, List.map_cons, List.map_nil, if_neg h2,
      List.foldl_cons, List.foldl_nil]
    simp [pctFoldStep, h1]
  · by_cases hsp : c = ' '
    · subst hsp
      simp [quoteChar, hs, plusToSpace, pctFoldStep]
    · by_cases h256 : c.toNat < 256
      · have hdiv : c.toNat / 16 < 16 := by omega
        have hmod : c.toNat % 16 < 16 := Nat.mod_lt _ (by omega)
        obtain ⟨e1, p1, _, _, _⟩ := hexDigitChar_spec ⟨c.toNat / 16, hdiv⟩
        obtain ⟨e2, p2, _, _, _⟩ := hexDigitChar_spec ⟨c.toNat % 16, hmod⟩
        simp only [quoteChar, if_neg hs, if_neg hsp, if_pos h256, plusToSpace, List.map_cons,
          List.map_nil, List.foldl_cons, List.foldl_nil]
        rw [if_neg (by decide : ¬ ('%' = '+')), if_neg p1, if_neg p2]
        rw [show pctFoldStep (out, []) '%' = (out, ['%']) from by simp [pctFoldStep]]
        rw [show pctFoldStep (out, ['%']) (hexDigitChar (c.toNat / 16)) =
          (out, ['%', hexDigitChar (c.toNat / 16)]) from by simp [pctFoldStep, e1]]
        rw [show pctFoldStep (out, ['%', hexDigitChar (c.toNat / 16)])
            (hexDigitChar (c.toNat % 16)) =
            (Char.ofNat (16 * (c.toNat / 16) + c.toNat % 16) :: out, []) from by
          simp [pctFoldStep, e1, e2]]
        rw [Nat.div_add_mod c.toNat 16, Char.ofNat_toNat]
      · have h1 : c ≠ '%' := fun h => h256 (by rw [h]; decide)
        have h2 : c ≠ '+' := fun h => h256 (by rw [h]; decide)
        simp only [quoteChar, if_neg hs, if_neg hsp, if_neg h256, plusToSpace, List.map_cons,
          List.map_nil, if_neg h2, List.foldl_cons, List.foldl_nil]
        simp [pctFoldStep, h1]

theorem pyQuotePlus_cons (c : Char) (l : List Char) :
    pyQuotePlus (c :: l) = quoteChar c ++ pyQuotePlus l := by
  simp [pyQuotePlus]

theorem plusToSpace_append (a b : List Char) :
    plusToSpace (a ++ b) = plusToSpace a ++ plusToSpace b := by
  simp [plusToSpace]

theorem unquote_quote_aux : ∀ (l out : List Char),
    List.foldl pctFoldStep (out, []) (plusToSpace (pyQuotePlus l)) = (l.reverse ++ out, [])
  | [], out => by simp [pyQuotePlus, plusToSpace]
  | c :: l', out => by
    rw [pyQuotePlus_cons, plusToSpace_append, List.foldl_append, pct_quote_one c out,
      unquote_quote_aux l' (c :: out)]
    simp

/-- Round trip: `unquote(quote_plus(s).replace('+',' ')) = s`. -/
theorem pyUnquotePlus_pyQuotePlus (l : List Char) : pyUnquotePlus (pyQuotePlus l) = l := by
  show pctDecode (plusToSpace (pyQuotePlus l)) = l
  unfold pctDecode
  rw [unquote_quote_aux l []]
  simp

theorem quoteChar_ne_nil (c : Char) : quoteChar c ≠ [] := by
  unfold quoteChar
  split
  · simp
  · split
    · simp
    · split <;> simp

theorem pyQuotePlus_eq_nil_iff (l : List Char) : pyQuotePlus l = [] ↔ l = [] := by
  cases l with
  | nil => simp [pyQuotePlus]
  | cons c l' =>
    rw [pyQuotePlus_cons]
    simp only [List.append_eq_nil]
    exact ⟨fun h => absurd h.1 (quoteChar_ne_nil c), fun h => by simp at h⟩

theorem quoteChar_mem_ne (c x : Char) (hx : x ∈ quoteChar c) : x ≠ '&' ∧ x ≠ '=' := by
  unfold quoteChar at hx
  by_cases hs : safeChar c = true
  · rw [if_pos hs] at hx
    obtain ⟨_, _, h3, h4⟩ := safeChar_ne c hs
    have : x = c := List.mem_singleton.mp hx
    subst this
    exact ⟨h3, h4⟩
  · rw [if_neg hs] at hx
    by_cases hsp : c = ' '
    · rw [if_pos hsp] at hx
      have : x = '+' := List.mem_singleton.mp hx
      subst this
      exact ⟨by decide, by decide⟩
    · rw [if_neg hsp] at hx
      by_cases h256 : c.toNat < 256
      · rw [if_pos h256] at hx
        have hdiv : c.toNat / 16 < 16 := by omega
        have hmod : c.toNat % 16 < 16 := Nat.mod_lt _ (by omega)
        obtain ⟨_, _, _, a1, a2⟩ := hexDigitChar_spec ⟨c.toNat / 16, hdiv⟩
        obtain ⟨_, _, _, b1, b2⟩ := hexDigitChar_spec ⟨c.toNat % 16, hmod⟩
        simp only [List.mem_cons, List.not_mem_nil, or_false] at hx
        rcases hx with rfl | rfl | rfl
        · exact ⟨by decide, by decide⟩
        · exact ⟨a1, a2⟩
        · exact ⟨b1, b2⟩
      · rw [if_neg h256] at hx
        have : x = c := List.mem_singleton.mp hx
        subst this
        refine ⟨fun h => h256 (by rw [h]; decide), fun h => h256 (by rw [h]; decide)⟩

theorem pyQuotePlus_mem_ne (l : List Char) (x : Char) (hx : x ∈ pyQuotePlus l) :
    x ≠ '&' ∧ x ≠ '=' := by
  unfold pyQuotePlus at hx
  rw [List.mem_flatten] at hx
  obtain ⟨seg, hseg, hxin⟩ := hx
  rw [List.mem_map] at hseg
  obtain ⟨c, _, rfl⟩ := hseg
  exact quoteChar_mem_ne c x hxin

/-- Every arm of the decoding automaton leaves a non-trivial state. -/
theorem pctFoldStep_ne (st : List Char × List Char) (c : Char) :
    (pctFoldStep st c).1 ≠ [] ∨ (pctFoldStep st c).2 ≠ [] := by
  obtain ⟨out, pend⟩ := st
  rcases pend with _ | ⟨p1, ptail⟩
  · by_cases h : c = '%' <;> simp [pctFoldStep, h]
  · rcases ptail with _ | ⟨p2, ptail2⟩
    · by_cases h1 : p1 = '%'
      · subst h1
        by_cases h2 : (hexVal c).isSome
        · simp [pctFoldStep, h2]
        · by_cases h3 : c = '%' <;>
            simp [pctFoldStep, h2, h3, show hexVal '%' = none from by decide]
      · simp [pctFoldStep, h1]
    · rcases ptail2 with _ | ⟨p3, _⟩
      · by_cases h1 : p1 = '%'
        · subst h1
          rcases hh : hexVal p2 with _ | x
          · simp only [pctFoldStep]
            by_cases h3 : c = '%' <;> simp [hh, h3]
          · rcases hc : hexVal c with _ | y
            · simp only [pctFoldStep]
              by_cases h3 : c = '%' <;>
                simp [hh, hc, h3, show hexVal '%' = none from by decide]
            · simp [pctFoldStep, hh, hc]
        · simp [pctFoldStep, h1]
      · by_cases h1 : p1 = '%' <;> simp [pctFoldStep, h1]

theorem pctFold_ne : ∀ (l : List Char) (st : List Char × List Char), l ≠ [] →
    (List.foldl pctFoldStep st l).1 ≠ [] ∨ (List.foldl pctFoldStep st l).2 ≠ []
  | [], _, h => absurd rfl h
  | c :: rest, st, _ => by
    rw [List.foldl_cons]
    cases rest with
    | nil => exact pctFoldStep_ne st c
    | cons d rest' => exact pctFold_ne (d :: rest') (pctFoldStep st c) (by simp)

/-- Decoding a non-empty string yields a non-empty string. -/
theorem pctDecode_ne_nil (l : List Char) (h : l ≠ []) : pctDecode l ≠ [] := by
  unfold pctDecode
  rcases pctFold_ne l ([], []) h with h1 | h2
  · intro hc
    rcases List.append_eq_nil.mp hc with ⟨ha, _⟩
    exact h1 (by simpa using ha)
  · intro hc
    exact h2 (List.append_eq_nil.mp hc).2

theorem pyUnquotePlus_ne_nil (l : List Char) (h : l ≠ []) : pyUnquotePlus l ≠ [] := by
  unfold pyUnquotePlus
  refine pctDecode_ne_nil _ ?_
  simp [plusToSpace, h]

/-! Split/join of `&`-separated segments. -/

theorem splitAmp_no_amp : ∀ (s : List Char), '&' ∉ s → splitAmp s = [s]
  | [], _ => rfl
  | c :: cs, h => by
    have hc : c ≠ '&' := fun hh => h (hh ▸ List.mem_cons_self c cs)
    have ih := splitAmp_no_amp cs (fun hh => h (List.mem_cons_of_mem c hh))
    simp [splitAmp, hc, ih]

theorem splitAmp_append (t : List Char) : ∀ (s : List Char), '&' ∉ s →
    splitAmp (s ++ '&' :: t) = s :: splitAmp t
  | [], _ => by simp [splitAmp]
  | c :: cs, h => by
    have hc : c ≠ '&' := fun hh => h (hh ▸ List.mem_cons_self c cs)
    have ih := splitAmp_append t cs (fun hh => h (List.mem_cons_of_mem c hh))
    simp [splitAmp, hc, ih]

theorem splitEq_append (v : List Char) : ∀ (k : List Char), '=' ∉ k →
    splitEq (k ++ '=' :: v) = some (k, v)
  | [], _ => by simp [splitEq]
  | c :: cs, h => by
    have hc : c ≠ '=' := fun hh => h (hh ▸ List.mem_cons_self c cs)
    have ih := splitEq_append v cs (fun hh => h (List.mem_cons_of_mem c hh))
    simp [splitEq, hc, ih]

/-- The encoded segment `quote_plus(k)=quote_plus(v)` of one pair. -/
def encSeg (kv : List Char × List Char) : List Char :=
  pyQuotePlus kv.1 ++ '=' :: pyQuotePlus kv.2

/-- The flattened `(key, value)` pairs of a grouped query dictionary. -/
def flattenPairs (l : List (List Char × List (List Char))) : List (List Char × List Char) :=
  (l.map (fun kv => kv.2.map (fun v => (kv.1, v)))).flatten

theorem urlencodeGrouped_eq (l : List (List Char × List (List Char))) :
    urlencodeGrouped l = joinAmp ((flattenPairs l).map encSeg) := by
  unfold urlencodeGrouped flattenPairs
  congr 1
  rw [List.map_flatten]
  congr 1
  rw [List.map_map]
  refine List.map_congr_left ?_
  intro kv _
  simp [Function.comp, encSeg, List.map_map]

theorem encSeg_no_amp (p : List Char × List Char) : '&' ∉ encSeg p := by
  intro h
  unfold encSeg at h
  rcases List.mem_append.mp h with h1 | h2
  · exact (pyQuotePlus_mem_ne p.1 '&' h1).1 rfl
  · rcases List.mem_cons.mp h2 with h3 | h4
    · exact absurd h3.symm (by decide)
    · exact (pyQuotePlus_mem_ne p.2 '&' h4).1 rfl

theorem qsSeg_encSeg (p : List Char × List Char) (hv : p.2 ≠ []) :
    qsSeg (encSeg p) = some p := by
  have hkeq : '=' ∉ pyQuotePlus p.1 := fun h => (pyQuotePlus_mem_ne p.1 '=' h).2 rfl
  have hvq : ¬ (pyQuotePlus p.2 = []) := by simpa [pyQuotePlus_eq_nil_iff] using hv
  simp [qsSeg, encSeg, splitEq_append (pyQuotePlus p.2) (pyQuotePlus p.1) hkeq, hvq,
    pyUnquotePlus_pyQuotePlus]

theorem parse_qsl_join : ∀ (pairs : List (List Char × List Char)),
    (∀ p ∈ pairs, p.2 ≠ []) →
    parse_qsl (joinAmp (pairs.map encSeg)) = pairs
  | [], _ => by simp [parse_qsl, splitAmp, qsSeg]
  | p :: rest, h => by
    have hp := h p (List.mem_cons_self p rest)
    cases rest with
    | nil =>
      show parse_qsl (joinAmp [encSeg p]) = [p]
      unfold parse_qsl
      rw [show joinAmp [encSeg p] = encSeg p from rfl]
      rw [splitAmp_no_amp _ (encSeg_no_amp p)]
      simp [qsSeg_encSeg p hp]
    | cons q rest' =>
      show parse_qsl (joinAmp (encSeg p :: encSeg q :: List.map encSeg rest')) = p :: q :: rest'
      unfold parse_qsl
      rw [show joinAmp (encSeg p :: encSeg q :: List.map encSeg rest') =
        encSeg p ++ '&' :: joinAmp (encSeg q :: List.map encSeg rest') from rfl]
      rw [splitAmp_append _ _ (encSeg_no_amp p)]
      rw [List.filterMap_cons, qsSeg_encSeg p hp]
      have ih := parse_qsl_join (q :: rest')
        (fun x hx => h x (List.mem_cons_of_mem p hx))
      unfold parse_qsl at ih
      rw [show (q :: rest').map encSeg = encSeg q :: List.map encSeg rest' from rfl] at ih
      rw [ih]

/-! Re-grouping the flattened pairs. -/

theorem addVal_fresh : ∀ (acc : List (List Char × List (List Char))) (k v : List Char),
    (∀ g ∈ acc, g.1 ≠ k) → addVal acc k v = acc ++ [(k, [v])]
  | [], _, _, _ => rfl
  | (k0, vs0) :: rest, k, v, h => by
    have hk0 : k0 ≠ k := h (k0, vs0) (List.mem_cons_self _ _)
    simp only [addVal, if_neg hk0, List.cons_append, List.cons.injEq, true_and]
    exact addVal_fresh rest k v (fun g hg => h g (List.mem_cons_of_mem _ hg))

theorem addVal_last : ∀ (acc : List (List Char × List (List Char))) (k : List Char)
    (w : List (List Char)) (v : List Char),
    (∀ g ∈ acc, g.1 ≠ k) → addVal (acc ++ [(k, w)]) k v = acc ++ [(k, w ++ [v])]
  | [], k, w, v, _ => by simp [addVal]
  | (k0, vs0) :: rest, k, w, v, h => by
    have hk0 : k0 ≠ k := h (k0, vs0) (List.mem_cons_self _ _)
    simp only [List.cons_append, addVal, if_neg hk0, List.cons.injEq, true_and]
    exact addVal_last rest k w v (fun g hg => h g (List.mem_cons_of_mem _ hg))

theorem foldl_addVal_same (k : List Char) : ∀ (vs : List (List Char))
    (acc : List (List Char × List (List Char))) (w : List (List Char)),
    (∀ g ∈ acc, g.1 ≠ k) →
    (vs.map (fun v => (k, v))).foldl (fun a kv => addVal a kv.1 kv.2) (acc ++ [(k, w)]) =
      acc ++ [(k, w ++ vs)]
  | [], acc, w, _ => by simp
  | v :: vs', acc, w, h => by
    simp only [List.map_cons, List.foldl_cons]
    rw [addVal_last acc k w v h, foldl_addVal_same k vs' acc (w ++ [v]) h]
    simp

theorem foldl_addVal_groups : ∀ (L acc : List (List Char × List (List Char))),
    (∀ g ∈ L, g.2 ≠ []) →
    ((L.map Prod.fst).Nodup) →
    (∀ a ∈ acc, ∀ g ∈ L, a.1 ≠ g.1) →
    (flattenPairs L).foldl (fun a kv => addVal a kv.1 kv.2) acc = acc ++ L
  | [], acc, _, _, _ => by simp [flattenPairs]
  | (k, vs) :: rest, acc, hne, hnodup, hdisj => by
    obtain ⟨v0, vs', rfl⟩ : ∃ v0 vs', vs = v0 :: vs' := by
      cases vs with
      | nil => exact absurd rfl (hne (k, []) (List.mem_cons_self _ _))
      | cons a b => exact ⟨a, b, rfl⟩
    have hfreshacc : ∀ g ∈ acc, g.1 ≠ k :=
      fun g hg => hdisj g hg (k, v0 :: vs') (List.mem_cons_self _ _)
    have hknotrest : ∀ g ∈ rest, k ≠ g.1 := by
      intro g hg hbad
      have : (List.map Prod.fst ((k, v0 :: vs') :: rest)).Nodup := hnodup
      simp only [List.map_cons, List.nodup_cons] at this
      exact this.1 (hbad ▸ List.mem_map_of_mem Prod.fst hg)
    show (flattenPairs ((k, v0 :: vs') :: rest)).foldl (fun a kv => addVal a kv.1 kv.2) acc
      = acc ++ (k, v0 :: vs') :: rest
    have hflat : flattenPairs ((k, v0 :: vs') :: rest) =
        ((k, v0) :: vs'.map (fun v => (k, v))) ++ flattenPairs rest := by
      simp [flattenPairs]
    rw [hflat, List.foldl_append, List.foldl_cons]
    rw [show addVal acc k v0 = acc ++ [(k, [v0])] from addVal_fresh acc k v0 hfreshacc]
    rw [foldl_addVal_same k vs' acc [v0] hfreshacc, List.singleton_append]
    rw [foldl_addVal_groups rest (acc ++ [(k, v0 :: vs')])
      (fun g hg => hne g (List.mem_cons_of_mem _ hg))
      (by
        have : (List.map Prod.fst ((k, v0 :: vs') :: rest)).Nodup := hnodup
        simp only [List.map_cons, List.nodup_cons] at this
        exact this.2)
      (by
        intro a ha g hg
        rcases List.mem_append.mp ha with h1 | h2
        · exact hdisj a h1 g (List.mem_cons_of_mem _ hg)
        · have ha' : a = (k, v0 :: vs') := List.mem_singleton.mp h2
          subst ha'
          exact hknotrest g hg)]
    simp

/-! Well-formedness of `parse_qs` output. -/

theorem addVal_keys (acc : List (List Char × List (List Char))) (k v : List Char) :
    (addVal acc k v).map Prod.fst =
      (if k ∈ acc.map Prod.fst then acc.map Prod.fst else acc.map Prod.fst ++ [k]) := by
  induction acc with
  | nil => simp [addVal]
  | cons g rest ih =>
    obtain ⟨k0, vs0⟩ := g
    by_cases hk : k0 = k
    · subst hk
      simp [addVal]
    · have hkk0 : ¬ (k = k0) := fun h => hk h.symm
      simp only [addVal, if_neg hk, List.map_cons, ih]
      by_cases hmem : k ∈ rest.map Prod.fst
      · simp [hmem, hkk0, List.mem_cons]
      · simp [hmem, hkk0, List.mem_cons]

theorem addVal_cases (k v : List Char) :
    ∀ (acc : List (List Char × List (List Char))) (g : List Char × List (List Char)),
    g ∈ addVal acc k v →
    g ∈ acc ∨ (∃ g0 ∈ acc, g.1 = g0.1 ∧ g.2 = g0.2 ++ [v]) ∨ g = (k, [v])
  | [], g, hg => by
    simp only [addVal, List.mem_singleton] at hg
    exact Or.inr (Or.inr hg)
  | (k0, vs0) :: rest, g, hg => by
    by_cases hk : k0 = k
    · subst hk
      simp only [addVal, if_pos rfl] at hg
      cases hg with
      | head => exact Or.inr (Or.inl ⟨(k0, vs0), List.mem_cons_self _ _, rfl, rfl⟩)
      | tail b hg => exact Or.inl (List.mem_cons_of_mem _ hg)
    · simp only [addVal, if_neg hk] at hg
      cases hg with
      | head => exact Or.inl (List.mem_cons_self _ _)
      | tail b hg =>
        rcases addVal_cases k v rest _ hg with h1 | ⟨g0, hg0, he, hv⟩ | h3
        · exact Or.inl (List.mem_cons_of_mem _ h1)
        · exact Or.inr (Or.inl ⟨g0, List.mem_cons_of_mem _ hg0, he, hv⟩)
        · exact Or.inr (Or.inr h3)

theorem parse_qs_foldl_wf : ∀ (pairs : List (List Char × List Char))
    (acc : List (List Char × List (List Char))),
    (∀ p ∈ pairs, p.2 ≠ []) →
    ((acc.map Prod.fst).Nodup) →
    (∀ g ∈ acc, g.2 ≠ [] ∧ ∀ x ∈ g.2, x ≠ []) →
    (((pairs.foldl (fun a kv => addVal a kv.1 kv.2) acc).map Prod.fst).Nodup ∧
     ∀ g ∈ pairs.foldl (fun a kv => addVal a kv.1 kv.2) acc, g.2 ≠ [] ∧ ∀ x ∈ g.2, x ≠ [])
  | [], acc, _, hnd, hwf => ⟨hnd, hwf⟩
  | (k, v) :: rest, acc, hpair, hnd, hwf => by
    rw [List.foldl_cons]
    refine parse_qs_foldl_wf rest (addVal acc k v)
      (fun p hp => hpair p (List.mem_cons_of_mem _ hp)) ?_ ?_
    · rw [addVal_keys]
      by_cases hmem : k ∈ acc.map Prod.fst
      · simpa [hmem] using hnd
      · simp only [if_neg hmem]
        exact List.Nodup.append hnd (List.nodup_singleton k)
          (by simpa [List.disjoint_singleton] using hmem)
    · intro g hg
      have hv : v ≠ [] := hpair (k, v) (List.mem_cons_self _ _)
      rcases addVal_cases k v acc g hg with h1 | ⟨g0, hg0, _, hval⟩ | rfl
      · exact hwf g h1
      · obtain ⟨_, hall0⟩ := hwf g0 hg0
        refine ⟨by simp [hval], ?_⟩
        intro x hx
        rw [hval] at hx
        rcases List.mem_append.mp hx with hx1 | hx2
        · exact hall0 x hx1
        · rw [List.mem_singleton.mp hx2]
          exact hv
      · exact ⟨by simp, by simpa using hv⟩

theorem parse_qsl_values (q : List Char) : ∀ p ∈ parse_qsl q, p.2 ≠ [] := by
  intro p hp
  unfold parse_qsl at hp
  rw [List.mem_filterMap] at hp
  obtain ⟨seg, _, hseg⟩ := hp
  unfold qsSeg at hseg
  by_cases h0 : seg = []
  · rw [if_pos h0] at hseg
    simp at hseg
  · rw [if_neg h0] at hseg
    rcases hsp : splitEq seg with _ | ⟨k, v⟩
    · rw [hsp] at hseg
      simp at hseg
    · rw [hsp] at hseg
      have hseg' : (if v = [] then none
          else some (pyUnquotePlus k, pyUnquotePlus v)) = some p := hseg
      by_cases hv : v = []
      · rw [if_pos hv] at hseg'
        simp at hseg'
      · rw [if_neg hv] at hseg'
        have hpe : (pyUnquotePlus k, pyUnquotePlus v) = p := by
          simpa using hseg'
        rw [← hpe]
        exact pyUnquotePlus_ne_nil v hv

theorem parse_qs_wf (q : List Char) :
    ((parse_qs q).map Prod.fst).Nodup ∧
    ∀ g ∈ parse_qs q, g.2 ≠ [] ∧ ∀ x ∈ g.2, x ≠ [] := by
  unfold parse_qs
  exact parse_qs_foldl_wf (parse_qsl q) [] (parse_qsl_values q) (by simp) (by simp)

theorem stripped_wf (q : List Char) :
    ((strippedQS q).map Prod.fst).Nodup ∧
    ∀ g ∈ strippedQS q, g.2 ≠ [] ∧ ∀ x ∈ g.2, x ≠ [] := by
  obtain ⟨hnd, hwf⟩ := parse_qs_wf q
  refine ⟨?_, ?_⟩
  · exact List.Nodup.sublist ((List.filter_sublist _).map Prod.fst) hnd
  · intro g hg
    exact hwf g (List.mem_of_mem_filter hg)

theorem flattenPairs_mem (L : List (List Char × List (List Char)))
    (p : List Char × List Char) (hp : p ∈ flattenPairs L) :
    ∃ g ∈ L, p.1 = g.1 ∧ p.2 ∈ g.2 := by
  unfold flattenPairs at hp
  rw [List.mem_flatten] at hp
  obtain ⟨l, hl, hpl⟩ := hp
  rw [List.mem_map] at hl
  obtain ⟨g, hg, rfl⟩ := hl
  rw [List.mem_map] at hpl
  obtain ⟨v, hv, rfl⟩ := hpl
  exact ⟨g, hg, rfl, hv⟩

/-- The central round trip: re-parsing the query string that
`strip_playlist_context` emits gives exactly the stripped dictionary. -/
theorem parse_qs_strippedQuery (q : List Char) :
    parse_qs (strippedQuery q) = strippedQS q := by
  obtain ⟨hnd, hwf⟩ := stripped_wf q
  unfold strippedQuery
  show parse_qs (urlencodeGrouped (strippedQS q)) = strippedQS q
  unfold parse_qs
  rw [urlencodeGrouped_eq, parse_qsl_join (flattenPairs (strippedQS q)) (by
    intro p hp
    obtain ⟨g, hg, _, hv⟩ := flattenPairs_mem _ p hp
    exact (hwf g hg).2 p.2 hv)]
  exact foldl_addVal_groups (strippedQS q) [] (fun g hg => (hwf g hg).1) hnd (by simp)

/-- A string starting with `/watch` keeps a character after `strip("/")`. -/
theorem mem_dropWhile_of_neg {p : Char → Bool} {c : Char} :
    ∀ {l : List Char}, c ∈ l → p c = false → c ∈ l.dropWhile p
  | [], h, _ => absurd h (List.not_mem_nil c)
  | a :: l, h, hpc => by
    by_cases hpa : p a = true
    · rw [List.dropWhile_cons_of_pos hpa]
      rcases List.mem_cons.mp h with rfl | hmem
      · rw [hpa] at hpc
        cases hpc
      · exact mem_dropWhile_of_neg hmem hpc
    · rw [List.dropWhile_cons_of_neg hpa]
      exact h

theorem stripSlashes_ne_empty (s : String) (c : Char) (hc : c ∈ s.data) (hne : c ≠ '/') :
    stripSlashes s ≠ "" := by
  intro hbad
  have hdata : ((((s.data.dropWhile (fun x => x = '/')).reverse).dropWhile
      (fun x => x = '/')).reverse) = [] := by
    have := congrArg String.data hbad
    simpa [stripSlashes] using this
  have hcf : c ∈ ((((s.data.dropWhile (fun x => x = '/')).reverse).dropWhile
      (fun x => x = '/')).reverse) := by
    rw [List.mem_reverse]
    refine mem_dropWhile_of_neg ?_ (by simp [hne])
    rw [List.mem_reverse]
    exact mem_dropWhile_of_neg hc (by simp [hne])
  rw [hdata] at hcf
  exact absurd hcf (List.not_mem_nil c)

theorem strStarts_watch_strip (p : String) (h : strStarts p "/watch" = true) :
    stripSlashes p ≠ "" := by
  have hpre : "/watch".data <+: p.data := by
    rw [← List.isPrefixOf_iff_prefix]
    exact h
  obtain ⟨t, ht⟩ := hpre
  refine stripSlashes_ne_empty p 'w' ?_ (by decide)
  rw [← ht]
  simp

theorem strStarts_shorts_not_watch (p : String) (h : strStarts p "/shorts/" = true) :
    strStarts p "/watch" = false := by
  have hpre : "/shorts/".data <+: p.data := by
    rw [← List.isPrefixOf_iff_prefix]
    exact h
  obtain ⟨t, ht⟩ := hpre
  by_cases hw : strStarts p "/watch" = true
  · have hpre2 : "/watch".data <+: p.data := by
      rw [← List.isPrefixOf_iff_prefix]
      exact hw
    obtain ⟨t2, ht2⟩ := hpre2
    rw [← ht] at ht2
    simp at ht2
  · exact Bool.not_eq_true _ ▸ hw

/-- The claim's classification rule, verbatim from the spec: a `/playlist`
path, or a `/watch` path with a `list` parameter and no `v` parameter. -/
def claimedPlaylistLike (u : Url) : Bool :=
  strStarts u.path "/playlist" ||
  (strStarts u.path "/watch" && hasQsKey (parse_qs u.query.data) ['l', 'i', 's', 't'] &&
   ! hasQsKey (parse_qs u.query.data) ['v'])

/-- The classification the code actually implements. -/
def amendedPlaylistLike (url : String) (u : Url) : Bool :=
  (url ≠ "" : Bool) && (url.length ≤ 2000 : Bool) &&
  (containsSub (pyLower u.netloc) "youtube.com" || containsSub (pyLower u.netloc) "youtu.be") &&
  (strStarts u.path "/playlist" ||
   (strStarts u.path "/watch" && hasQsKey (parse_qs u.query.data) ['l', 'i', 's', 't'] &&
    ! hasQsKey (parse_qs u.query.data) ['v'] &&
    ! strEnds (pyLower u.netloc) "youtu.be"))

/-- C6, counterexample — the claim's "playlist-like exactly when it has
a `/playlist` path, or a `/watch` path with `list` and no `v`" is false for
the code, which additionally requires a YouTube host: the non-YouTube URL
`https://example.com/playlist` has a `/playlist` path yet is classified
single-item. -/
theorem playlist_url_cex :
    claimedPlaylistLike ⟨"https", "example.com", "/playlist", "", "", ""⟩ = true ∧
    is_youtube_playlist_url "https://example.com/playlist"
      ⟨"https", "example.com", "/playlist", "", "", ""⟩ = false := by
  exact ⟨by decide, by decide⟩

/-- C6, amended — (a) A queued URL is classified playlist-like exactly
when it is non-empty, at most 2000 characters, its host contains
`youtube.com` or `youtu.be`, and it has a `/playlist` path or (a `/watch`
path with a `list` query parameter, no `v` parameter, and a host not ending
in `youtu.be`); `shorts` paths and short-host single-video links are
single-item.  (b) For every URL of length ≤ 2000 handed to
`strip_playlist_context`, the emitted URL is the reassembly of the original
scheme, netloc, path, params and fragment with a re-encoded query that
parses back to exactly the original parameters minus `list`, `index` and
`start_radio` — those three keys are absent, every other key keeps its
values. -/
theorem playlist_classification_and_strip :
    (∀ (url : String) (u : Url), is_youtube_playlist_url url u = amendedPlaylistLike url u) ∧
    (∀ (url : String) (u : Url), url ≠ "" → url.length ≤ 2000 →
      strip_playlist_context url u =
        urlunparse u.scheme u.netloc u.path u.params
          (String.mk (strippedQuery u.query.data)) u.fragment ∧
      parse_qs (strippedQuery u.query.data) = strippedQS u.query.data ∧
      hasQsKey (parse_qs (strippedQuery u.query.data)) ['l', 'i', 's', 't'] = false ∧
      hasQsKey (parse_qs (strippedQuery u.query.data)) ['i', 'n', 'd', 'e', 'x'] = false ∧
      hasQsKey (parse_qs (strippedQuery u.query.data))
        ['s', 't', 'a', 'r', 't', '_', 'r', 'a', 'd', 'i', 'o'] = false) := by
  constructor
  · intro url u
    unfold is_youtube_playlist_url amendedPlaylistLike
    by_cases h1 : url = ""
    · simp [h1]
    · rw [if_neg h1]
      by_cases h2 : url.length > 2000
      · rw [if_pos h2]
        have hx : ¬ (url.length ≤ 2000) := by omega
        simp [h1, hx]
      · rw [if_neg h2]
        have hlen : url.length ≤ 2000 := by omega
        by_cases hA : containsSub (pyLower u.netloc) "youtube.com" = true ∨
            containsSub (pyLower u.netloc) "youtu.be" = true
        · rw [if_neg (not_not_intro hA)]
          have hAb : (containsSub (pyLower u.netloc) "youtube.com" ||
              containsSub (pyLower u.netloc) "youtu.be") = true := by
            rcases hA with h | h <;> simp [h]
          by_cases hP : strStarts u.path "/playlist" = true
          · rw [if_pos hP]
            simp [h1, hlen, hAb, hP]
          · rw [if_neg hP]
            by_cases hY : strEnds (pyLower u.netloc) "youtu.be" = true ∧
                stripSlashes u.path ≠ ""
            · rw [if_pos hY]
              have hPf : strStarts u.path "/playlist" = false := by
                cases hx : strStarts u.path "/playlist"
                · rfl
                · exact absurd hx hP
              simp [hPf, hY.1]
            · rw [if_neg hY]
              by_cases hSh : strStarts u.path "/shorts/" = true
              · rw [if_pos hSh]
                have hw : strStarts u.path "/watch" = false :=
                  strStarts_shorts_not_watch u.path hSh
                have hPf : strStarts u.path "/playlist" = false := by
                  cases hx : strStarts u.path "/playlist"
                  · rfl
                  · exact absurd hx hP
                simp [hPf, hw]
              · rw [if_neg hSh]
                by_cases hW : strStarts u.path "/watch" = true ∧
                    hasQsKey (parse_qs u.query.data) ['l', 'i', 's', 't'] = true ∧
                    ¬ hasQsKey (parse_qs u.query.data) ['v'] = true
                · rw [if_pos hW]
                  have hstrip := strStarts_watch_strip u.path hW.1
                  have hend : strEnds (pyLower u.netloc) "youtu.be" = false := by
                    cases hx : strEnds (pyLower u.netloc) "youtu.be"
                    · rfl
                    · exact absurd ⟨hx, hstrip⟩ hY
                  have hv : hasQsKey (parse_qs u.query.data) ['v'] = false := by
                    cases hx : hasQsKey (parse_qs u.query.data) ['v']
                    · rfl
                    · exact absurd hx hW.2.2
                  simp [h1, hlen, hAb, hW.1, hW.2.1, hv, hend]
                · rw [if_neg hW]
                  have hPf : strStarts u.path "/playlist" = false := by
                    cases hx : strStarts u.path "/playlist"
                    · rfl
                    · exact absurd hx hP
                  have hwb : (strStarts u.path "/watch" &&
                      hasQsKey (parse_qs u.query.data) ['l', 'i', 's', 't'] &&
                      ! hasQsKey (parse_qs u.query.data) ['v']) = false := by
                    by_contra hc
                    have hc' : (strStarts u.path "/watch" &&
                        hasQsKey (parse_qs u.query.data) ['l', 'i', 's', 't'] &&
                        ! hasQsKey (parse_qs u.query.data) ['v']) = true := by
                      revert hc
                      cases strStarts u.path "/watch" &&
                        hasQsKey (parse_qs u.query.data) ['l', 'i', 's', 't'] &&
                        ! hasQsKey (parse_qs u.query.data) ['v'] <;> simp
                    rw [Bool.and_eq_true, Bool.and_eq_true] at hc'
                    have hvfalse : hasQsKey (parse_qs u.query.data) ['v'] = false := by
                      simpa using hc'.2
                    exact hW ⟨hc'.1.1, hc'.1.2, fun hb => by
                      rw [hb] at hvfalse
                      exact absurd hvfalse (by decide)⟩
                  have hwb' : (strStarts u.path "/watch" &&
                      hasQsKey (parse_qs u.query.data) ['l', 'i', 's', 't'] &&
                      ! hasQsKey (parse_qs u.query.data) ['v'] &&
                      ! strEnds (pyLower u.netloc) "youtu.be") = false := by
                    rw [hwb]
                    rfl
                  simp [hPf, hwb']
        · rw [if_pos hA]
          have hAb : (containsSub (pyLower u.netloc) "youtube.com" ||
              containsSub (pyLower u.netloc) "youtu.be") = false := by
            cases hx : containsSub (pyLower u.netloc) "youtube.com"
            · cases hy : containsSub (pyLower u.netloc) "youtu.be"
              · rfl
              · exact absurd (Or.inr hy) hA
            · exact absurd (Or.inl hx) hA
          simp [hAb]
  · intro url u hne hlen
    have hout : strip_playlist_context url u =
        urlunparse u.scheme u.netloc u.path u.params
          (String.mk (strippedQuery u.query.data)) u.fragment := by
      unfold strip_playlist_context
      rw [if_neg hne, if_neg (by omega : ¬ url.length > 2000)]
    have hround := parse_qs_strippedQuery u.query.data
    have hbad : ∀ k : List Char,
        (k = ['l', 'i', 's', 't'] ∨ k = ['i', 'n', 'd', 'e', 'x'] ∨
         k = ['s', 't', 'a', 'r', 't', '_', 'r', 'a', 'd', 'i', 'o']) →
        hasQsKey (parse_qs (strippedQuery u.query.data)) k = false := by
      intro k hk
      rw [hround]
      by_contra hcon
      have htrue : hasQsKey (strippedQS u.query.data) k = true := by
        revert hcon
        cases hasQsKey (strippedQS u.query.data) k <;> simp
      unfold hasQsKey at htrue
      rw [List.any_eq_true] at htrue
      obtain ⟨kv, hkv, hkk⟩ := htrue
      have hkk' : kv.1 = k := by simpa using hkk
      unfold strippedQS at hkv
      have hpred := List.of_mem_filter hkv
      simp only [decide_eq_true_eq] at hpred
      exact hpred (by rw [hkk']; exact hk)
    exact ⟨hout, hround, hbad _ (Or.inl rfl), hbad _ (Or.inr (Or.inl rfl)),
      hbad _ (Or.inr (Or.inr rfl))⟩

/-- URL instantiating C6. -/
def urlC6 : String := "https://www.youtube.com/watch?v=abc&list=PL9&index=2&t=42"

/-- Parsed form `urlparse(urlC6)`. -/
def uC6 : Url := ⟨"https", "www.youtube.com", "/watch", "", "v=abc&list=PL9&index=2&t=42", ""⟩

/-- Witness for C6: a `/watch` URL with `v`, `list`, `index` and `t`
parameters is classified single-item, and stripping removes exactly `list`
and `index` while keeping `v` and `t`. -/
theorem playlist_classification_witness :
    is_youtube_playlist_url urlC6 uC6 = amendedPlaylistLike urlC6 uC6 ∧
    strip_playlist_context urlC6 uC6 =
      urlunparse uC6.scheme uC6.netloc uC6.path uC6.params
        (String.mk (strippedQuery uC6.query.data)) uC6.fragment ∧
    parse_qs (strippedQuery uC6.query.data) = strippedQS uC6.query.data ∧
    hasQsKey (parse_qs (strippedQuery uC6.query.data)) ['l', 'i', 's', 't'] = false ∧
    hasQsKey (parse_qs (strippedQuery uC6.query.data)) ['i', 'n', 'd', 'e', 'x'] = false ∧
    strip_playlist_context urlC6 uC6 = "https://www.youtube.com/watch?v=abc&t=42" := by
  have h := playlist_classification_and_strip
  have hb := h.2 urlC6 uC6 (by decide) (by decide)
  exact ⟨h.1 urlC6 uC6, hb.1, hb.2.1, hb.2.2.1, hb.2.2.2.1, by decide⟩

end Ytnd
